import Mathlib

/-!
Verification of the block storage engine and chainstate bootstrap sequence
(`src/node/blockstorage.cpp`, `init/chainstate` LoadChainstateSequence) via a
shallow embedding in Lean 4.

Machine integers are modelled as `Nat` with explicit `% 2^w` where overflow is
possible; byte streams are `List Nat` with each element a byte value `< 256`;
fallible operations return `Option`.  External code that is only declared in
the repository sources (hash functions, `GetBlockProof`, consensus checks, the
`node/blockstorage.h` helpers) is either taken as an explicit function
parameter or modelled from the spec; each such definition is marked.
-/

namespace BlockStorage

/-! ### Little-endian byte serialization

Embedding of the fixed-width little-endian integer encodings used by the
on-disk format (4-byte sizes, 32-byte hashes/checksums). -/
/-- Serialize `n` as `k` little-endian base-256 digits (low byte first),
truncating at `256 ^ k` exactly like a `k`-byte machine write. -/
def serLE : Nat → Nat → List Nat
  | 0, _ => []
  | k + 1, n => n % 256 :: serLE k (n / 256)

/-- Decode a little-endian base-256 digit list back to a `Nat`. -/
def deserLE (bs : List Nat) : Nat :=
  bs.foldr (fun b acc => b + 256 * acc) 0

/-- A 4-byte little-endian unsigned integer (`unsigned int` on disk). -/
def ser32 (n : Nat) : List Nat := serLE 4 n

/-- A 32-byte little-endian value (`uint256` on disk). -/
def ser256 (n : Nat) : List Nat := serLE 32 n

/-! ### The block index work comparator (`CBlockIndexWorkComparator`)

`blockstorage.cpp` lines 31-48.  A node is identified for comparison purposes
by its cumulative chain work, its sequence id and its address (the C++
comparator falls back to the pointer value; distinct nodes have distinct
addresses). `nSequenceId` is a signed 32-bit value, modelled as `Int`. -/
/-- The data of a `CBlockIndex*` consulted by `CBlockIndexWorkComparator`:
cumulative work, sequence id, and the node's address (pointer value). -/
structure WorkCmpNode where
  nChainWork : Nat
  nSequenceId : Int
  addr : Nat
deriving Repr, DecidableEq

/-- Shallow embedding of `CBlockIndexWorkComparator::operator()`:
first by most total work, then by earliest sequence id, then by pointer
address as tie breaker; identical blocks compare `false`. -/
def workComparator (pa pb : WorkCmpNode) : Bool :=
  if pa.nChainWork > pb.nChainWork then false
  else if pa.nChainWork < pb.nChainWork then true
  else if pa.nSequenceId < pb.nSequenceId then false
  else if pa.nSequenceId > pb.nSequenceId then true
  else if pa.addr < pb.addr then false
  else if pa.addr > pb.addr then true
  else false

/-! ### The in-memory block index (`m_block_index`)

Block hashes (`uint256`) are modelled as `Nat`; the all-zero null hash is
`0`.  The index `BlockMap` is an association list keyed by block hash; keys
are unique for every state reachable by the operations below. -/
/-- The header fields of `CBlockHeader` consulted by the block index code
(`hashPrevBlock`, `nTime`, `nBits`, `nNonce`; remaining fields do not appear
in the embedded operations). -/
structure CBlockHeader where
  hashPrevBlock : Nat
  nTime : Nat
  nBits : Nat
  nNonce : Nat
deriving Repr, DecidableEq

/-- Modelled from the spec: `CBlockHeader::GetHash` (double-SHA256 of the
serialized header; `hash.h`/`primitives` are absent from the sources).  The
digest is modelled as an injective function of the header fields that never
collides with the null hash `0`. -/
def CBlockHeader.getHash (h : CBlockHeader) : Nat :=
  Nat.pair h.hashPrevBlock (Nat.pair h.nTime (Nat.pair h.nBits h.nNonce)) + 1

/-- The fields of a `CBlockIndex` entry touched by the embedded operations.
`pprev` is the parent link: `some k` means the entry was linked (at insertion
or load time) to the entry stored under hash key `k`; heights are `Int` as in
the source (`int nHeight`).  `nChainWork` is an `arith_uint256`, modelled as a
`Nat` reduced `% 2^256` where it is assigned. -/
structure CBlockIndex where
  header : CBlockHeader
  pprev : Option Nat
  nHeight : Int
  nChainWork : Nat
  nSequenceId : Int
  nTimeMax : Nat
  nStatus : Nat
  nTx : Nat
  nChainTx : Nat
  nFile : Nat
  nDataPos : Nat
  nUndoPos : Nat
deriving Repr, DecidableEq

/-- A default-constructed `CBlockIndex` (as produced by
`m_block_index.try_emplace(hash)` with no arguments). -/
def CBlockIndex.null : CBlockIndex :=
  { header := ⟨0, 0, 0, 0⟩, pprev := none, nHeight := 0, nChainWork := 0
    nSequenceId := 0, nTimeMax := 0, nStatus := 0, nTx := 0, nChainTx := 0
    nFile := 0, nDataPos := 0, nUndoPos := 0 }

/-- A `CBlockIndex` constructed from a header
(`CBlockIndex(const CBlockHeader& block)`). -/
def CBlockIndex.ofHeader (h : CBlockHeader) : CBlockIndex :=
  { CBlockIndex.null with header := h }

/-- The block index map type. -/
abbrev BlockMap : Type := List (Nat × CBlockIndex)

/-- Map lookup by block hash (`m_block_index.find`). -/
def lookupIndex : BlockMap → Nat → Option CBlockIndex
  | [], _ => none
  | (k, e) :: rest, h => if k = h then some e else lookupIndex rest h

/-- Replace the entry stored under key `k` (in-place mutation of a map
entry through a pointer). -/
def updateIndex : BlockMap → Nat → CBlockIndex → BlockMap
  | [], _, _ => []
  | (k, e) :: rest, key, e' =>
    if k = key then (k, e') :: rest else (k, e) :: updateIndex rest key e'

/-- The keys of a block index map. -/
def keysOf (m : BlockMap) : List Nat := m.map Prod.fst

/-- Shallow embedding of `BlockManager::InsertBlockIndex`
(`blockstorage.cpp` lines 265-279): a null hash yields no entry and leaves
the map unchanged; otherwise `try_emplace` either finds the existing entry or
default-constructs a new one. -/
def insertBlockIndex (m : BlockMap) (hash : Nat) : BlockMap × Option CBlockIndex :=
  if hash = 0 then
    (m, none)
  else
    match lookupIndex m hash with
    | some e => (m, some e)
    | none => ((hash, CBlockIndex.null) :: m, some CBlockIndex.null)

/-- Modelled from the spec: `CBlockIndex::RaiseValidity(BLOCK_VALID_TREE)` on
a status word (`chain.h` is absent from the sources; `BLOCK_VALID_MASK = 7`,
`BLOCK_FAILED_MASK = 96`, `BLOCK_VALID_TREE = 2`): raise the validity level
to tree-valid unless the entry is marked failed. -/
def raiseValidityTree (nStatus : Nat) : Nat :=
  if nStatus &&& 96 ≠ 0 then nStatus
  else if nStatus &&& 7 < 2 then (nStatus - (nStatus &&& 7)) + 2
  else nStatus

/-- The cumulative work `AddToBlockIndex` assigns to a newly inserted header:
the parent's work (`0` when the parent is unknown) plus the header's
proof-of-work weight, in `arith_uint256` arithmetic
(`blockstorage.cpp` line 103). -/
def newHeaderWork (proof : CBlockHeader → Nat) (m : BlockMap)
    (block : CBlockHeader) : Nat :=
  ((match lookupIndex m block.hashPrevBlock with
    | some p => p.nChainWork
    | none => 0) + proof block) % 2 ^ 256

/-- Shallow embedding of `BlockManager::AddToBlockIndex`
(`blockstorage.cpp` lines 80-112), parametrized by the proof-of-work weight
function `GetBlockProof` (defined in `chain.cpp`, absent from the sources).
`best` is the `best_header` pointer, modelled as the hash key of the entry it
points at (the map is the arena owning the entries, so a pointer is a key).
Returns the updated map, the updated best-header pointer and the hash key of
the entry returned by the function. -/
def addToBlockIndex (proof : CBlockHeader → Nat) (m : BlockMap)
    (best : Option Nat) (block : CBlockHeader) :
    BlockMap × Option Nat × Nat :=
  match lookupIndex m block.getHash with
  | some _ => (m, best, block.getHash)
  | none =>
    let prev := lookupIndex m block.hashPrevBlock
    let nHeight : Int := match prev with
      | some p => p.nHeight + 1
      | none => 0
    let nTimeMax := match prev with
      | some p => max p.nTimeMax block.nTime
      | none => block.nTime
    let nChainWork := newHeaderWork proof m block
    let e : CBlockIndex :=
      { CBlockIndex.ofHeader block with
        pprev := prev.map fun _ => block.hashPrevBlock
        nHeight := nHeight
        nSequenceId := 0
        nTimeMax := nTimeMax
        nChainWork := nChainWork
        nStatus := raiseValidityTree 0 }
    let m' := (block.getHash, e) :: m
    let best' := match best with
      | none => some block.getHash
      | some bk =>
        if ((lookupIndex m bk).getD CBlockIndex.null).nChainWork < nChainWork
        then some block.getHash else some bk
    (m', best', block.getHash)

/-- Fold a sequence of `AddToBlockIndex` calls over an initial map and
best-header pointer. -/
def addHeaders (proof : CBlockHeader → Nat) :
    List CBlockHeader → BlockMap × Option Nat → BlockMap × Option Nat
  | [], s => s
  | h :: rest, (m, best) =>
    let r := addToBlockIndex proof m best h
    addHeaders proof rest (r.1, r.2.1)

/-- One entry of the `LoadBlockIndex` derived-field pass over
`vSortedByHeight` (`blockstorage.cpp` lines 293-327): recompute `nChainWork`
and `nTimeMax` of the entry stored under `k` from its parent's current
values, recompute `nChainTx` (bootstrapping the snapshot block's value from
the assumeutxo parameters, given as `snapshot = some (hash, nChainTx)`),
record the entry in `m_blocks_unlinked` when the parent's `nChainTx` is not
yet known, and mark the entry failed-child when its parent is failed.  The
skip-pointer construction (`BuildSkip`, defined in the absent `chain.h`) and
the dirty-set bookkeeping touch no field read here and are not modelled. -/
def loadStep (proof : CBlockHeader → Nat) (snapshot : Option (Nat × Nat))
    (mu : BlockMap × List (Nat × Nat)) (k : Nat) : BlockMap × List (Nat × Nat) :=
  match lookupIndex mu.1 k with
  | none => mu
  | some e =>
    let prev := e.pprev.bind (lookupIndex mu.1)
    let work := ((match prev with | some p => p.nChainWork | none => 0) +
        proof e.header) % 2 ^ 256
    let tmax := match prev with
      | some p => max p.nTimeMax e.header.nTime
      | none => e.header.nTime
    let ctxu : Nat × List (Nat × Nat) :=
      if 0 < e.nTx then
        match e.pprev, prev with
        | some ph, some p =>
          if snapshot.map Prod.fst = some k then
            ((snapshot.map Prod.snd).getD 0, mu.2)
          else if 0 < p.nChainTx then (p.nChainTx + e.nTx, mu.2)
          else (0, mu.2 ++ [(ph, k)])
        | _, _ => (e.nTx, mu.2)
      else (e.nChainTx, mu.2)
    let status :=
      match prev with
      | some p =>
        if e.nStatus &&& 96 = 0 ∧ p.nStatus &&& 96 ≠ 0 then e.nStatus ||| 64
        else e.nStatus
      | none => e.nStatus
    (updateIndex mu.1 k
      { e with nChainWork := work, nTimeMax := tmax, nChainTx := ctxu.1
               nStatus := status },
     ctxu.2)

/-- The `LoadBlockIndex` derived-field pass: apply `loadStep` to every key in
`order` (the hashes of `vSortedByHeight`, sorted by `nHeight`). -/
def loadWorkPass (proof : CBlockHeader → Nat) (snapshot : Option (Nat × Nat)) :
    List Nat → BlockMap × List (Nat × Nat) → BlockMap × List (Nat × Nat)
  | [], mu => mu
  | k :: rest, mu => loadWorkPass proof snapshot rest (loadStep proof snapshot mu k)

/-- The chain-work/height recurrence of the block index: every entry that was
linked to a parent carries work equal to the parent's work plus its own
proof-of-work (in `arith_uint256` arithmetic) and height one more than the
parent's. -/
def WorkRec (proof : CBlockHeader → Nat) (m : BlockMap) : Prop :=
  ∀ k e ph, lookupIndex m k = some e → e.pprev = some ph →
    ∃ p, lookupIndex m ph = some p ∧
      e.nChainWork = (p.nChainWork + proof e.header) % 2 ^ 256 ∧
      e.nHeight = p.nHeight + 1

/-- Shallow embedding of `CBlockIndexHeightOnlyComparator::operator()`
(`blockstorage.cpp` lines 50-53). -/
def heightOnlyComparator (pa pb : CBlockIndex) : Bool :=
  pa.nHeight < pb.nHeight

/-- Parent links of a map resolve to an entry of strictly smaller height
(well-formedness of an index loaded from the store). -/
def LinksResolve (m : BlockMap) : Prop :=
  ∀ k e ph, lookupIndex m k = some e → e.pprev = some ph →
    ∃ p, lookupIndex m ph = some p ∧ p.nHeight < e.nHeight

/-- `order` is sorted according to `CBlockIndexHeightOnlyComparator` on the
entries of `m` (the postcondition of the `std::sort` over
`vSortedByHeight`): no later entry compares strictly below an earlier one. -/
def SortedByHeight (m : BlockMap) (order : List Nat) : Prop :=
  order.Pairwise fun a b => ∀ ea eb, lookupIndex m a = some ea →
    lookupIndex m b = some eb → heightOnlyComparator eb ea = false

/-! ### Block files, cursors and `FindBlockPos`

The `BlockManager` file bookkeeping: per-file metadata
(`CBlockFileInfo`), the two per-stream cursors and the file-position
selection logic. -/
/-- The per-file metadata record `CBlockFileInfo` (declared in
`chain.h`/`node/blockstorage.h`, absent from the sources; fields per the
spec: byte sizes of block and undo data, lowest/highest written height,
earliest/latest written time, and the number of blocks stored). -/
structure CBlockFileInfo where
  nBlocks : Nat
  nSize : Nat
  nUndoSize : Nat
  nHeightFirst : Nat
  nHeightLast : Nat
  nTimeFirst : Nat
  nTimeLast : Nat
deriving Repr, DecidableEq

/-- A null (`SetNull`) file info record. -/
def CBlockFileInfo.setNull : CBlockFileInfo :=
  ⟨0, 0, 0, 0, 0, 0, 0⟩

instance : Inhabited CBlockFileInfo := ⟨CBlockFileInfo.setNull⟩

/-- Modelled from the spec: `CBlockFileInfo::AddBlock` (declared in the
absent header): update the lowest/highest written height and the
earliest/latest written time, and count the block. -/
def CBlockFileInfo.addBlock (info : CBlockFileInfo) (nHeightIn nTimeIn : Nat) :
    CBlockFileInfo :=
  { info with
    nHeightFirst := if info.nBlocks = 0 ∨ info.nHeightFirst > nHeightIn
      then nHeightIn else info.nHeightFirst
    nTimeFirst := if info.nBlocks = 0 ∨ info.nTimeFirst > nTimeIn
      then nTimeIn else info.nTimeFirst
    nBlocks := info.nBlocks + 1
    nHeightLast := max info.nHeightLast nHeightIn
    nTimeLast := max info.nTimeLast nTimeIn }

/-- The two logical block file streams (`enum BlockfileType`). -/
inductive BlockfileType where
  | NORMAL
  | ASSUMED
deriving Repr, DecidableEq

/-- A per-stream write cursor (`struct BlockfileCursor`): the current file
number and the height up to which undo data has been written in it. -/
structure BlockfileCursor where
  file_num : Nat
  undo_height : Nat
deriving Repr, DecidableEq

/-- The `BlockManager` state consulted by `FindBlockPos` and the pruning
logic: the per-file metadata table and the two stream cursors
(`m_blockfile_info`, `m_blockfile_cursors`). -/
structure BMState where
  m_blockfile_info : List CBlockFileInfo
  normal_cursor : Option BlockfileCursor
  assumed_cursor : Option BlockfileCursor
deriving Repr, DecidableEq

/-- Read a stream's cursor (`m_blockfile_cursors[type]`). -/
def BMState.cursorOf (st : BMState) : BlockfileType → Option BlockfileCursor
  | BlockfileType.NORMAL => st.normal_cursor
  | BlockfileType.ASSUMED => st.assumed_cursor

/-- Set a stream's cursor. -/
def BMState.setCursor (st : BMState) :
    BlockfileType → BlockfileCursor → BMState
  | BlockfileType.NORMAL, c => { st with normal_cursor := some c }
  | BlockfileType.ASSUMED, c => { st with assumed_cursor := some c }

/-- Modelled from the spec: `BlockManager::MaxBlockfileNum` (declared in the
absent `node/blockstorage.h`): the highest file number in use across both
streams — the maximum of the two cursors' file numbers, a missing cursor
counting as an empty (zero) cursor. -/
def BMState.maxBlockfileNum (st : BMState) : Nat :=
  max ((st.normal_cursor.getD ⟨0, 0⟩).file_num)
    ((st.assumed_cursor.getD ⟨0, 0⟩).file_num)

/-- Indexing into `m_blockfile_info` (a resized `std::vector`; out-of-range
reads, which the source never performs after its `resize` calls, yield the
null record). -/
def BMState.infoAt (st : BMState) (i : Nat) : CBlockFileInfo :=
  st.m_blockfile_info.getD i CBlockFileInfo.setNull

/-- `m_blockfile_info.resize (n)` when growing (the only direction the
source uses on this path). -/
def BMState.resizeInfo (st : BMState) (n : Nat) : BMState :=
  if st.m_blockfile_info.length < n then
    let pad := List.replicate (n - st.m_blockfile_info.length) CBlockFileInfo.setNull
    { st with m_blockfile_info := st.m_blockfile_info ++ pad }
  else st

/-- Update the record at index `i` of `m_blockfile_info`. -/
def BMState.setInfo (st : BMState) (i : Nat) (info : CBlockFileInfo) : BMState :=
  { st with m_blockfile_info := st.m_blockfile_info.set i info }

/-- A flat file position (`struct FlatFilePos`): file number and byte
offset. -/
structure FlatFilePos where
  nFile : Nat
  nPos : Nat
deriving Repr, DecidableEq

/-- `MAX_BLOCKFILE_SIZE` (128 MiB). -/
def MAX_BLOCKFILE_SIZE : Nat := 0x8000000

/-- The cursor-advancing `while` loop of `FindBlockPos`
(`blockstorage.cpp` lines 746-761): while the candidate file cannot take
`nAddSize` more bytes, record whether the undo file has caught up with the
block file (`finalize_undo`), move to one past the highest file number in
use across both streams, point the stream's cursor there and grow the file
table.  The loop is written with explicit fuel; every iteration strictly
increases the file number, and indices at or beyond the initial table length
hold null records, so `table length + 2` fuel always suffices. -/
def findBlockPosLoop (ty : BlockfileType) (nAddSize maxSize : Nat) :
    Nat → BMState → Nat → Bool → BMState × Nat × Bool
  | 0, st, nFile, fin => (st, nFile, fin)
  | fuel + 1, st, nFile, fin =>
    if (st.infoAt nFile).nSize + nAddSize ≥ maxSize then
      let fin' := (st.infoAt nFile).nHeightLast ==
        ((st.cursorOf ty).getD ⟨0, 0⟩).undo_height
      let nFile' := st.maxBlockfileNum + 1
      let st' := (st.setCursor ty ⟨nFile', 0⟩).resizeInfo (nFile' + 1)
      findBlockPosLoop ty nAddSize maxSize fuel st' nFile' fin'
    else (st, nFile, fin)

/-- The `fKnown = true` tail of `FindBlockPos` (the position is externally
supplied, as during reindex): only file-size bookkeeping is updated, moving
the stream's cursor when the supplied file differs from the current one. -/
def findBlockPosKnown (st₀ : BMState) (pos : FlatFilePos)
    (nAddSize nHeight : Nat) (ty : BlockfileType) (nTime : Nat) (last : Nat) :
    BMState × FlatFilePos :=
  let nFile := pos.nFile
  let st := st₀.resizeInfo (nFile + 1)
  let st := if nFile ≠ last then st.setCursor ty ⟨nFile, 0⟩ else st
  let st := st.setInfo nFile ((st.infoAt nFile).addBlock nHeight nTime)
  let st := st.setInfo nFile
    { st.infoAt nFile with
      nSize := max (pos.nPos + nAddSize) (st.infoAt nFile).nSize }
  (st, pos)

/-- The `fKnown = false` tail of `FindBlockPos`: extend the stream's current
file `last` if it has room, otherwise advance to a fresh file number via
`findBlockPosLoop`; then record the block and the added bytes in the file's
metadata.  `none` models the `assert(nAddSize < max_blockfile_size)`
failure; space allocation is modelled as succeeding (on disk full the
source reports a fatal error and returns no position). -/
def findBlockPosUnknown (st₀ : BMState) (nAddSize nHeight : Nat)
    (ty : BlockfileType) (nTime : Nat) (fastPrune : Bool) (last : Nat) :
    Option (BMState × FlatFilePos) :=
  let maxSize := if fastPrune then
    (if nAddSize ≥ 0x10000 then nAddSize + 1 else 0x10000)
    else MAX_BLOCKFILE_SIZE
  if maxSize ≤ nAddSize then none
  else
    let st := st₀.resizeInfo (last + 1)
    let r := findBlockPosLoop ty nAddSize maxSize
      (st.m_blockfile_info.length + 2) st last false
    let st := r.1
    let nFile' := r.2.1
    let pos' : FlatFilePos := ⟨nFile', (st.infoAt nFile').nSize⟩
    let st := if nFile' ≠ last then st.setCursor ty ⟨nFile', 0⟩ else st
    let st := st.setInfo nFile' ((st.infoAt nFile').addBlock nHeight nTime)
    let st := st.setInfo nFile'
      { st.infoAt nFile' with
        nSize := (st.infoAt nFile').nSize + nAddSize }
    some (st, pos')

/-- Shallow embedding of `BlockManager::FindBlockPos`
(`blockstorage.cpp` lines 712-797).  `none` models an `assert` failure (a
missing NORMAL cursor, or an oversized `nAddSize`); flushing is I/O with no
effect on this state. -/
def findBlockPos (st₀ : BMState) (pos : FlatFilePos) (nAddSize nHeight : Nat)
    (ty : BlockfileType) (nTime : Nat) (fKnown : Bool) (fastPrune : Bool) :
    Option (BMState × FlatFilePos) :=
  if st₀.cursorOf ty = none ∧ ty = BlockfileType.NORMAL then none
  else
    let st := match st₀.cursorOf ty with
      | none => st₀.setCursor ty ⟨st₀.maxBlockfileNum + 1, 0⟩
      | some _ => st₀
    let last := ((st.cursorOf ty).getD ⟨0, 0⟩).file_num
    if fKnown then
      some (findBlockPosKnown st pos nAddSize nHeight ty nTime last)
    else findBlockPosUnknown st nAddSize nHeight ty nTime fastPrune last

/-- The blockfile-cursor initialization of `LoadBlockIndexDB`
(`blockstorage.cpp` lines 399-427): walk the file records in increasing
file-number order and point each stream's cursor at the last file seen for
that stream (a record belongs to the ASSUMED stream when a snapshot is
active and the record's highest height exceeds the snapshot base height,
given as `snapshotBase`); if a snapshot is active and no record extends past
the base height, seed the ASSUMED cursor one past the maximum file number.
This is one iteration of that loop. -/
def initCursorStep (snapshotBase : Option Nat) (st : BMState) (i : Nat) :
    BMState :=
  let ty := match snapshotBase with
    | some base =>
      if (st.infoAt i).nHeightLast > base then BlockfileType.ASSUMED
      else BlockfileType.NORMAL
    | none => BlockfileType.NORMAL
  st.setCursor ty ⟨i, 0⟩

def initCursors (infos : List CBlockFileInfo) (snapshotBase : Option Nat) :
    BMState :=
  let st₀ : BMState :=
    { m_blockfile_info := infos, normal_cursor := none, assumed_cursor := none }
  let st := (List.range infos.length).foldl (initCursorStep snapshotBase) st₀
  if snapshotBase.isSome ∧ st.assumed_cursor = none then
    st.setCursor BlockfileType.ASSUMED ⟨st.maxBlockfileNum + 1, 0⟩
  else st

/-- A `FindBlockPos` request with `fKnown = false` (a freshly arriving
block). -/
structure FBPRequest where
  nAddSize : Nat
  nHeight : Nat
  ty : BlockfileType
  nTime : Nat
deriving Repr, DecidableEq

/-- Run a sequence of `fKnown = false` `FindBlockPos` calls, collecting the
stream and the file number of every returned position.  An aborted call
stops the run, as an `assert` failure stops the process. -/
def runFindBlockPos (fastPrune : Bool) :
    List FBPRequest → BMState → List (BlockfileType × Nat)
  | [], _ => []
  | r :: rest, st =>
    match findBlockPos st ⟨0, 0⟩ r.nAddSize r.nHeight r.ty r.nTime false
      fastPrune with
    | none => []
    | some (st', pos') =>
      (r.ty, pos'.nFile) :: runFindBlockPos fastPrune rest st'

/-- The other stream. -/
def BlockfileType.other : BlockfileType → BlockfileType
  | BlockfileType.NORMAL => BlockfileType.ASSUMED
  | BlockfileType.ASSUMED => BlockfileType.NORMAL

/-- The cursor-separation invariant: when both stream cursors exist they
carry distinct file numbers. -/
def CursorsSeparated (st : BMState) : Prop :=
  ∀ cn ca, st.normal_cursor = some cn → st.assumed_cursor = some ca →
    cn.file_num ≠ ca.file_num

/-- Every file number in the output trace is either the file its stream's
cursor pointed at when the run started, or lies strictly above every file
number that was in use then. -/
def OutputsSpec (st : BMState) (outs : List (BlockfileType × Nat)) : Prop :=
  ∀ ty f, (ty, f) ∈ outs →
    (∃ c, st.cursorOf ty = some c ∧ c.file_num = f) ∨ st.maxBlockfileNum < f

/-- Both cursors (when present) lie strictly below `n`. -/
def CursorBound (st : BMState) (n : Nat) : Prop :=
  (∀ c, st.normal_cursor = some c → c.file_num < n) ∧
  (∀ c, st.assumed_cursor = some c → c.file_num < n)

/-! ### Pruning (`FindFilesToPrune`, `FindFilesToPruneManual`,
`PruneOneBlockFile`)

`GetPruneRange` (defined in `validation.cpp`, absent from the sources)
supplies the safe window as the pair `(min_block_to_prune,
nLastBlockWeCanPrune)`; both are taken as parameters here. -/
/-- `BLOCKFILE_CHUNK_SIZE` (16 MiB). -/
def BLOCKFILE_CHUNK_SIZE : Nat := 0x1000000

/-- `UNDOFILE_CHUNK_SIZE` (1 MiB). -/
def UNDOFILE_CHUNK_SIZE : Nat := 0x100000

/-- The `BlockManager` state touched by the pruning code: the file
bookkeeping, the block index and the `m_blocks_unlinked` multimap (modelled
as a list of (parent link, child key) pairs). -/
structure PruneState where
  bm : BMState
  m_block_index : BlockMap
  m_blocks_unlinked : List (Option Nat × Nat)
deriving Repr, DecidableEq

/-- Disk usage of all block and undo files
(`BlockManager::CalculateCurrentUsage`, `blockstorage.cpp` lines 662-671). -/
def calculateCurrentUsage (st : PruneState) : Nat :=
  (st.bm.m_blockfile_info.map fun f => f.nSize + f.nUndoSize).sum

/-- Shallow embedding of `BlockManager::PruneOneBlockFile`
(`blockstorage.cpp` lines 114-146): clear the have-data/have-undo status
bits (`BLOCK_HAVE_DATA = 8`, `BLOCK_HAVE_UNDO = 16`) and zero the stored
positions of every index entry referencing the file, drop the affected
entries from `m_blocks_unlinked`, and null the file's metadata record. -/
def pruneOneBlockFile (st : PruneState) (fileNumber : Nat) : PruneState :=
  let unlinked := st.m_block_index.foldl
    (fun ul (ke : Nat × CBlockIndex) =>
      if ke.2.nFile = fileNumber then
        ul.filter fun p => ¬(p.1 = ke.2.pprev ∧ p.2 = ke.1)
      else ul)
    st.m_blocks_unlinked
  { st with
    m_block_index := st.m_block_index.map fun ke =>
      if ke.2.nFile = fileNumber then
        (ke.1, { ke.2 with
          nStatus := ke.2.nStatus - (ke.2.nStatus &&& 24)
          nFile := 0, nDataPos := 0, nUndoPos := 0 })
      else ke
    m_blocks_unlinked := unlinked
    bm := st.bm.setInfo fileNumber CBlockFileInfo.setNull }

/-- The file-scanning loop of `FindFilesToPrune`
(`blockstorage.cpp` lines 228-251), parametrized by the disk-usage buffer:
walk the candidate file numbers in order, skipping empty files, stopping as
soon as usage (tracked in `uint64` arithmetic) has fallen under the target
by more than the buffer, skipping files whose height range leaves the
prunable window, and pruning the rest.  Returns the final state, the pruned
file numbers in scan order and the final usage. -/
def pruneScanLoop (target minBlock lastCanPrune nBuffer : Nat) :
    List Nat → PruneState → Nat → PruneState × List Nat × Nat
  | [], st, usage => (st, [], usage)
  | f :: rest, st, usage =>
    let info := st.bm.infoAt f
    let nBytesToPrune := info.nSize + info.nUndoSize
    if info.nSize = 0 then
      pruneScanLoop target minBlock lastCanPrune nBuffer rest st usage
    else if usage + nBuffer < target then (st, [], usage)
    else if lastCanPrune < info.nHeightLast ∨ info.nHeightFirst < minBlock then
      pruneScanLoop target minBlock lastCanPrune nBuffer rest st usage
    else
      let r := pruneScanLoop target minBlock lastCanPrune nBuffer rest
        (pruneOneBlockFile st f)
        ((usage + 2 ^ 64 - nBytesToPrune % 2 ^ 64) % 2 ^ 64)
      (r.1, f :: r.2.1, r.2.2)

/-- Shallow embedding of `BlockManager::FindFilesToPrune`
(`blockstorage.cpp` lines 185-258).  `pruneTarget / nChainstates` is the
per-chainstate target (`GetPruneTarget() / chainman.GetAll().size()`);
`minBlock` and `lastCanPrune` are the `GetPruneRange` outputs; `isIBD` is
`chainman.IsInitialBlockDownload()`. -/
def findFilesToPrune (st : PruneState) (pruneTarget nChainstates : Nat)
    (nPruneAfterHeight : Nat) (chain_tip_height : Int)
    (minBlock lastCanPrune : Nat) (isIBD : Bool) : PruneState × List Nat :=
  let target := pruneTarget / nChainstates
  if chain_tip_height < 0 ∨ target = 0 then (st, [])
  else if chain_tip_height.toNat ≤ nPruneAfterHeight then (st, [])
  else
    let nCurrentUsage := calculateCurrentUsage st
    let nBuffer := BLOCKFILE_CHUNK_SIZE + UNDOFILE_CHUNK_SIZE
    if nCurrentUsage + nBuffer ≥ target then
      let nBuffer := if isIBD then nBuffer + target / 10 else nBuffer
      let r := pruneScanLoop target minBlock lastCanPrune nBuffer
        (List.range st.bm.maxBlockfileNum) st nCurrentUsage
      (r.1, r.2.1)
    else (st, [])

/-- The file-scanning loop of `FindFilesToPruneManual`
(`blockstorage.cpp` lines 170-180). -/
def pruneManualLoop (minBlock last : Nat) :
    List Nat → PruneState → PruneState × List Nat
  | [], st => (st, [])
  | f :: rest, st =>
    let info := st.bm.infoAt f
    if info.nSize = 0 ∨ last < info.nHeightLast ∨
        info.nHeightFirst < minBlock then
      pruneManualLoop minBlock last rest st
    else
      let r := pruneManualLoop minBlock last rest (pruneOneBlockFile st f)
      (r.1, f :: r.2)

/-- Shallow embedding of `BlockManager::FindFilesToPruneManual`
(`blockstorage.cpp` lines 148-183): the last prunable block is additionally
capped by the requested manual prune height. -/
def findFilesToPruneManual (st : PruneState) (nManualPruneHeight : Nat)
    (chain_tip_height : Int) (minBlock lastCanPrune : Nat) :
    PruneState × List Nat :=
  if chain_tip_height < 0 then (st, [])
  else pruneManualLoop minBlock (min lastCanPrune nManualPruneHeight)
    (List.range st.bm.maxBlockfileNum) st

/-! ### On-disk block and undo records (`UndoWriteToDisk`,
`UndoReadFromDisk`, `WriteBlockToDisk`, `ReadBlockFromDisk`)

Files are byte lists; a position is a byte offset.  The serialization
framework, `undo.h` and `hash.h` are absent from the sources, so the
record encodings and the double-SHA256 digest are modelled from the spec. -/
/-- Split off exactly `n` leading bytes, failing on a short read. -/
def takeExact (n : Nat) (l : List Nat) : Option (List Nat × List Nat) :=
  if n ≤ l.length then some (l.take n, l.drop n) else none

/-- Modelled from the spec: a block-undo record (`CBlockUndo`, declared in
the absent `undo.h`) is its serialized payload; the encoding is the 4-byte
payload length followed by the payload bytes (a self-delimiting encoding,
standing in for the absent vector serialization). -/
structure CBlockUndo where
  payload : List Nat
deriving Repr, DecidableEq

/-- The serialized bytes of an undo record. -/
def serUndo (u : CBlockUndo) : List Nat :=
  ser32 u.payload.length ++ u.payload

/-- Modelled from the spec: the 256-bit double-SHA256 digest used for the
undo checksum and `HashVerifier` (`hash.h` is absent from the sources); any
deterministic 256-bit digest of the byte stream serves the embedding. -/
def hash256 (l : List Nat) : Nat :=
  (l.foldl (fun a b => a * 257 + b + 1) 7) % 2 ^ 256

/-- Shallow embedding of `BlockManager::UndoWriteToDisk`
(`blockstorage.cpp` lines 555-582): the bytes appended to the undo file are
the 4-byte network magic, the 4-byte payload size, the undo record, and a
trailing checksum over the previous block's hash followed by the undo
payload.  The position stored in the index entry is the write offset plus 8
(after magic and size). -/
def undoWriteBytes (magic : List Nat) (u : CBlockUndo) (hashBlock : Nat) :
    List Nat :=
  magic ++ ser32 (serUndo u).length ++ serUndo u ++
    ser256 (hash256 (ser256 hashBlock ++ serUndo u))

/-- Shallow embedding of `BlockManager::UndoReadFromDisk`
(`blockstorage.cpp` lines 584-615): deserialize the undo record at `nPos`,
read the trailing checksum, and recompute the verifier hash over the parent
block's hash followed by the bytes just read; a short read, a deserialize
failure or a checksum mismatch yields `none`. -/
def undoReadAt (file : List Nat) (nPos : Nat) (prevHash : Nat) :
    Option CBlockUndo :=
  (takeExact 4 (file.drop nPos)).bind fun ln =>
  (takeExact (deserLE ln.1) ln.2).bind fun pl =>
  (takeExact 32 pl.2).bind fun ck =>
  if deserLE ck.1 = hash256 (ser256 prevHash ++ (ln.1 ++ pl.1)) then
    some ⟨pl.1⟩
  else none

/-- Modelled from the spec: a block (`CBlock`, `primitives/block.h` absent
from the sources) is its header plus the serialized transactions payload. -/
structure CBlock where
  header : CBlockHeader
  txBytes : List Nat
deriving Repr, DecidableEq

/-- The serialized header bytes (hashPrevBlock, nTime, nBits, nNonce; the
fields carried by the embedded `CBlockHeader`). -/
def serHeader (h : CBlockHeader) : List Nat :=
  ser256 h.hashPrevBlock ++ ser32 h.nTime ++ ser32 h.nBits ++ ser32 h.nNonce

/-- The serialized bytes of a block: header then length-prefixed
transactions payload. -/
def serBlock (b : CBlock) : List Nat :=
  serHeader b.header ++ ser32 b.txBytes.length ++ b.txBytes

/-- Deserialize a block (`filein >> block`). -/
def deserBlock (l : List Nat) : Option (CBlock × List Nat) :=
  (takeExact 32 l).bind fun pr =>
  (takeExact 4 pr.2).bind fun tm =>
  (takeExact 4 tm.2).bind fun bt =>
  (takeExact 4 bt.2).bind fun nn =>
  (takeExact 4 nn.2).bind fun ln =>
  (takeExact (deserLE ln.1) ln.2).bind fun tx =>
  some (⟨⟨deserLE pr.1, deserLE tm.1, deserLE bt.1, deserLE nn.1⟩, tx.1⟩,
    tx.2)

/-- Shallow embedding of
`BlockManager::ReadBlockFromDisk(CBlock&, const FlatFilePos&)`
(`blockstorage.cpp` lines 878-906), parametrized by `CheckProofOfWork`
(defined in the absent `pow.cpp`) and the signet consensus configuration
(`signet_blocks`, `CheckSignetBlockSolution`, both absent): a deserialization
failure, a failing proof-of-work check, or (on signet) a failing block
solution check yields `none`. -/
def readBlockFromDisk (pow : Nat → Nat → Bool) (signetBlocks : Bool)
    (signetOk : CBlock → Bool) (file : List Nat) (nPos : Nat) :
    Option CBlock :=
  match deserBlock (file.drop nPos) with
  | none => none
  | some (b, _) =>
    if ¬ pow b.header.getHash b.header.nBits then none
    else if signetBlocks ∧ ¬ signetOk b then none
    else some b

/-- Shallow embedding of
`BlockManager::ReadBlockFromDisk(CBlock&, const CBlockIndex&)`
(`blockstorage.cpp` lines 908-920): read at the entry's data position and
additionally fail when the hash of the block read differs from the entry's
block hash. -/
def readBlockFromDiskForIndex (pow : Nat → Nat → Bool) (signetBlocks : Bool)
    (signetOk : CBlock → Bool) (file : List Nat) (nDataPos indexHash : Nat) :
    Option CBlock :=
  match readBlockFromDisk pow signetBlocks signetOk file nDataPos with
  | none => none
  | some b => if b.header.getHash ≠ indexHash then none else some b

/-- Shallow embedding of `BlockManager::WriteBlockToDisk`
(`blockstorage.cpp` lines 821-842): the bytes appended to the block file are
the 4-byte network magic, the 4-byte serialized size, and the block; the
position returned points past the 8-byte header. -/
def writeBlockBytes (magic : List Nat) (b : CBlock) : List Nat :=
  magic ++ ser32 (serBlock b).length ++ serBlock b

/-! ### LoadChainstateSequence (`init/chainstate.cpp`) -/
/-- The error codes returned by `LoadChainstateSequence`
(`init/chainstate.h`, absent from `src`; the return sites are in
`init/chainstate.cpp`). -/
inductive ChainstateLoadingError where
  | ERROR_LOADING_BLOCK_DB
  | ERROR_BAD_GENESIS_BLOCK
  | ERROR_PRUNED_NEEDS_REINDEX
  | ERROR_LOAD_GENESIS_BLOCK_FAILED
  | ERROR_CHAINSTATE_UPGRADE_FAILED
  | ERROR_REPLAYBLOCKS_FAILED
  | ERROR_LOADCHAINTIP_FAILED
  | ERROR_BLOCKS_WITNESS_INSUFFICIENTLY_VALIDATED
  | ERROR_BLOCK_FROM_FUTURE
  | ERROR_CORRUPTED_BLOCK_DB
  deriving DecidableEq

/-- The externally visible stage actions `LoadChainstateSequence` performs,
in the order it performs them; per-chainstate actions carry the position of
the chainstate in `ChainstateManager::GetAll()`. -/
inductive LoadEffect where
  | initializeChainstate
  | unloadBlockIndex
  | resetBlockTreeDB
  | writeReindexing
  | cleanupBlockRevFiles
  | loadBlockIndex
  | loadGenesisBlock
  | initCoinsDB (i : Nat)
  | upgradeCoinsDB (i : Nat)
  | replayBlocks (i : Nat)
  | initCoinsCache (i : Nat)
  | loadChainTip (i : Nat)
  | verifyDB (i : Nat)
  deriving DecidableEq

/-- Stage actions that come after the changed-prune check in
`LoadChainstateSequence`: writing the genesis block, initializing,
upgrading or replaying a coins view, loading a chain tip, and
verification. -/
def LoadEffect.isLaterStage : LoadEffect → Bool
  | .loadGenesisBlock => true
  | .initCoinsDB _ => true
  | .upgradeCoinsDB _ => true
  | .replayBlocks _ => true
  | .initCoinsCache _ => true
  | .loadChainTip _ => true
  | .verifyDB _ => true
  | _ => false

/-- The outcome of the unmodelled subsystem calls made for one chainstate:
whether `CoinsDB().Upgrade()`, `ReplayBlocks()`, `LoadChainTip()` and
`VerifyDB` succeed, whether `CoinsTip().GetBestBlock()` is null, and the
tip found after `LoadChainTip` (presence and `nTime`). -/
structure CSState where
  upgradeOk : Bool
  replayOk : Bool
  bestBlockNull : Bool
  loadChainTipOk : Bool
  tipExists : Bool
  tipTime : Nat
  verifyOk : Bool
  deriving DecidableEq

/-- The outcomes of the unmodelled global subsystem calls of
`LoadChainstateSequence`: the shutdown flag at its two poll points, the
result of `ChainstateManager::LoadBlockIndex` together with the
`fHavePruned` and reindexing flags it loads from disk, the genesis lookup,
`LoadGenesisBlock`, the chainstates of `GetAll()`, and whether any
chainstate `NeedsRedownload`. -/
structure CSWorld where
  shutdownRequested1 : Bool
  shutdownRequested2 : Bool
  loadBlockIndexOk : Bool
  fHavePrunedLoaded : Bool
  fReindexDisk : Bool
  blockIndexEmpty : Bool
  genesisInIndex : Bool
  loadGenesisOk : Bool
  chainstates : List CSState
  anyNeedsRedownload : Bool
  deriving DecidableEq

/-- `is_coinsview_empty` (`init/chainstate.cpp` lines 26-28). -/
def isCoinsviewEmpty (fReset fReindexChainState : Bool) (cs : CSState) :
    Bool :=
  fReset || fReindexChainState || cs.bestBlockNull

/-- The first per-chainstate loop of `LoadChainstateSequence`
(`init/chainstate.cpp` lines 86-118): coins database initialization,
upgrade, replay, cache creation and chain-tip load, stopping at the first
failure. -/
def coinsLoop (fReset fReindexChainState : Bool) :
    List (Nat × CSState) → List LoadEffect × Option ChainstateLoadingError
  | [] => ([], none)
  | (i, cs) :: rest =>
    if !cs.upgradeOk then
      ([.initCoinsDB i, .upgradeCoinsDB i],
        some .ERROR_CHAINSTATE_UPGRADE_FAILED)
    else if !cs.replayOk then
      ([.initCoinsDB i, .upgradeCoinsDB i, .replayBlocks i],
        some .ERROR_REPLAYBLOCKS_FAILED)
    else
      let e1 : List LoadEffect :=
        [.initCoinsDB i, .upgradeCoinsDB i, .replayBlocks i,
          .initCoinsCache i]
      if !isCoinsviewEmpty fReset fReindexChainState cs then
        if !cs.loadChainTipOk then
          (e1 ++ [.loadChainTip i], some .ERROR_LOADCHAINTIP_FAILED)
        else
          let r := coinsLoop fReset fReindexChainState rest
          (e1 ++ [.loadChainTip i] ++ r.1, r.2)
      else
        let r := coinsLoop fReset fReindexChainState rest
        (e1 ++ r.1, r.2)

/-- The verification loop of `LoadChainstateSequence`
(`init/chainstate.cpp` lines 130-152): for each chainstate with a
non-empty coins view, fail if the tip is more than two hours in the
future, then run `VerifyDB`. -/
def verifyLoop (fReset fReindexChainState : Bool) (adjustedTime : Nat) :
    List (Nat × CSState) → List LoadEffect × Option ChainstateLoadingError
  | [] => ([], none)
  | (i, cs) :: rest =>
    if isCoinsviewEmpty fReset fReindexChainState cs then
      verifyLoop fReset fReindexChainState adjustedTime rest
    else if cs.tipExists && decide (cs.tipTime > adjustedTime + 2 * 60 * 60)
        then ([], some .ERROR_BLOCK_FROM_FUTURE)
    else if !cs.verifyOk then
      ([.verifyDB i], some .ERROR_CORRUPTED_BLOCK_DB)
    else
      let r := verifyLoop fReset fReindexChainState adjustedTime rest
      (.verifyDB i :: r.1, r.2)

/-- Shallow embedding of `LoadChainstateSequence`
(`init/chainstate.cpp` lines 13-155). The outcomes of the unmodelled
subsystem calls are supplied through `CSWorld`; the function returns the
ordered list of stage actions performed and the optional error, with
`none` standing both for success and for the shutdown early-returns. -/
def loadChainstateSequence (w : CSWorld)
    (fReset fPruneMode fReindexChainState : Bool) (adjustedTime : Nat) :
    List LoadEffect × Option ChainstateLoadingError :=
  let eff0 : List LoadEffect :=
    [.initializeChainstate, .unloadBlockIndex, .resetBlockTreeDB] ++
      (if fReset then
        .writeReindexing ::
          (if fPruneMode then [.cleanupBlockRevFiles] else [])
      else [])
  if w.shutdownRequested1 then (eff0, none) else
  let eff1 := eff0 ++ [.loadBlockIndex]
  if !w.loadBlockIndexOk then
    (eff1, if w.shutdownRequested2 then none
      else some .ERROR_LOADING_BLOCK_DB) else
  if !w.blockIndexEmpty && !w.genesisInIndex then
    (eff1, some .ERROR_BAD_GENESIS_BLOCK) else
  if w.fHavePrunedLoaded && !fPruneMode then
    (eff1, some .ERROR_PRUNED_NEEDS_REINDEX) else
  let fReindex := fReset || w.fReindexDisk
  if !fReindex && !w.loadGenesisOk then
    (eff1 ++ [.loadGenesisBlock], some .ERROR_LOAD_GENESIS_BLOCK_FAILED)
  else
  let eff2 := eff1 ++ (if !fReindex then [.loadGenesisBlock] else [])
  let r3 := coinsLoop fReset fReindexChainState w.chainstates.enum
  match r3 with
  | (effL, some e) => (eff2 ++ effL, some e)
  | (effL, none) =>
    let eff3 := eff2 ++ effL
    if !fReset && w.anyNeedsRedownload then
      (eff3, some .ERROR_BLOCKS_WITNESS_INSUFFICIENTLY_VALIDATED) else
    let r5 := verifyLoop fReset fReindexChainState adjustedTime
      w.chainstates.enum
    (eff3 ++ r5.1, r5.2)

theorem serLE_length (k n : Nat) : (serLE k n).length = k := by
  induction k generalizing n with
  | zero => rfl
  | succ k ih => simp [serLE, ih]

theorem deserLE_serLE (k n : Nat) : deserLE (serLE k n) = n % 256 ^ k := by
  induction k generalizing n with
  | zero => simp [serLE, deserLE, Nat.mod_one]
  | succ k ih =>
    have hrec := ih (n / 256)
    have hmod : n % 256 ^ (k + 1) = n % 256 + 256 * (n / 256 % 256 ^ k) := by
      rw [pow_succ']
      exact Nat.mod_mul
    simp only [serLE, deserLE, List.foldr_cons]
    have hfold : (serLE k (n / 256)).foldr (fun b acc => b + 256 * acc) 0 =
        deserLE (serLE k (n / 256)) := rfl
    rw [hfold, hrec, hmod]

theorem deserLE_ser32 (n : Nat) (h : n < 2 ^ 32) : deserLE (ser32 n) = n := by
  have : (256 : Nat) ^ 4 = 2 ^ 32 := by norm_num
  rw [ser32, deserLE_serLE, this, Nat.mod_eq_of_lt h]

theorem deserLE_ser256 (n : Nat) (h : n < 2 ^ 256) : deserLE (ser256 n) = n := by
  have : (256 : Nat) ^ 32 = 2 ^ 256 := by norm_num
  rw [ser256, deserLE_serLE, this, Nat.mod_eq_of_lt h]

theorem serLE_isByte (k n : Nat) : ∀ b ∈ serLE k n, b < 256 := by
  induction k generalizing n with
  | zero => simp [serLE]
  | succ k ih =>
    intro b hb
    simp only [serLE, List.mem_cons] at hb
    rcases hb with h | h
    · exact h ▸ Nat.mod_lt _ (by norm_num)
    · exact ih _ b h

theorem workComparator_eq_true_iff (a b : WorkCmpNode) :
    workComparator a b = true ↔
      a.nChainWork < b.nChainWork ∨
      (a.nChainWork = b.nChainWork ∧ b.nSequenceId < a.nSequenceId) ∨
      (a.nChainWork = b.nChainWork ∧ a.nSequenceId = b.nSequenceId ∧
        b.addr < a.addr) := by
  unfold workComparator
  split_ifs <;> simp <;> omega

theorem workComparator_irrefl (a : WorkCmpNode) : workComparator a a = false := by
  simp [workComparator]

theorem workComparator_asymm (a b : WorkCmpNode) :
    workComparator a b = true → workComparator b a = false := by
  intro h
  rw [workComparator_eq_true_iff] at h
  rw [← Bool.not_eq_true, workComparator_eq_true_iff]
  omega

theorem workComparator_trans (a b c : WorkCmpNode) :
    workComparator a b = true → workComparator b c = true →
    workComparator a c = true := by
  intro h1 h2
  rw [workComparator_eq_true_iff] at h1 h2 ⊢
  omega

theorem workComparator_total (a b : WorkCmpNode) (h : a ≠ b) :
    workComparator a b = true ∨ workComparator b a = true := by
  have hne : a.nChainWork ≠ b.nChainWork ∨ a.nSequenceId ≠ b.nSequenceId ∨
      a.addr ≠ b.addr := by
    by_contra hcon
    push_neg at hcon
    apply h
    cases a; cases b
    simp only at hcon
    obtain ⟨hw, hs, ha⟩ := hcon
    simp [hw, hs, ha]
  rw [workComparator_eq_true_iff, workComparator_eq_true_iff]
  omega

theorem lookupIndex_updateIndex_self (m : BlockMap) (k : Nat) (e : CBlockIndex)
    (h : (lookupIndex m k).isSome) :
    lookupIndex (updateIndex m k e) k = some e := by
  induction m with
  | nil => simp [lookupIndex] at h
  | cons hd tl ih =>
    obtain ⟨k', e'⟩ := hd
    by_cases hk : k' = k
    · simp [updateIndex, lookupIndex, hk]
    · simp only [lookupIndex, updateIndex, if_neg hk] at h ⊢
      exact ih h

theorem lookupIndex_updateIndex_other (m : BlockMap) (k k' : Nat)
    (e : CBlockIndex) (h : k' ≠ k) :
    lookupIndex (updateIndex m k e) k' = lookupIndex m k' := by
  induction m with
  | nil => rfl
  | cons hd tl ih =>
    obtain ⟨k0, e0⟩ := hd
    by_cases hk : k0 = k
    · subst hk
      simp [updateIndex, lookupIndex, Ne.symm h]
    · simp only [updateIndex, if_neg hk, lookupIndex]
      by_cases hk' : k0 = k'
      · simp [hk']
      · simp [hk', ih]

theorem keysOf_updateIndex (m : BlockMap) (k : Nat) (e : CBlockIndex) :
    keysOf (updateIndex m k e) = keysOf m := by
  induction m with
  | nil => rfl
  | cons hd tl ih =>
    obtain ⟨k0, e0⟩ := hd
    by_cases hk : k0 = k
    · simp [updateIndex, hk, keysOf]
    · simp only [updateIndex, if_neg hk, keysOf, List.map_cons] at ih ⊢
      rw [ih]

theorem workRec_cons (proof : CBlockHeader → Nat) (m : BlockMap) (hash : Nat)
    (enew : CBlockIndex) (h : WorkRec proof m)
    (hfresh : lookupIndex m hash = none)
    (hnew : ∀ ph, enew.pprev = some ph → ∃ p, lookupIndex m ph = some p ∧
      enew.nChainWork = (p.nChainWork + proof enew.header) % 2 ^ 256 ∧
      enew.nHeight = p.nHeight + 1) :
    WorkRec proof ((hash, enew) :: m) := by
  intro k e ph hk hp
  simp only [lookupIndex] at hk
  by_cases hkh : hash = k
  · rw [if_pos hkh] at hk
    injection hk with hk
    subst hk
    obtain ⟨p, hp', hw, hh⟩ := hnew ph hp
    have hne : hash ≠ ph := fun hcon => by
      rw [hcon, hp'] at hfresh; exact Option.noConfusion hfresh
    exact ⟨p, by simp only [lookupIndex, if_neg hne]; exact hp', hw, hh⟩
  · rw [if_neg hkh] at hk
    obtain ⟨p, hp', hw, hh⟩ := h k e ph hk hp
    have hne : hash ≠ ph := fun hcon => by
      rw [hcon, hp'] at hfresh; exact Option.noConfusion hfresh
    exact ⟨p, by simp only [lookupIndex, if_neg hne]; exact hp', hw, hh⟩

theorem workRec_addToBlockIndex (proof : CBlockHeader → Nat) (m : BlockMap)
    (best : Option Nat) (block : CBlockHeader) (h : WorkRec proof m) :
    WorkRec proof (addToBlockIndex proof m best block).1 := by
  unfold addToBlockIndex
  cases hl : lookupIndex m block.getHash with
  | some e => exact h
  | none =>
    refine workRec_cons proof m block.getHash _ h hl ?_
    intro ph hp
    cases hprev : lookupIndex m block.hashPrevBlock with
    | none => simp [hprev] at hp
    | some p =>
      simp only [hprev, Option.map_some'] at hp
      injection hp with hp
      subst hp
      refine ⟨p, hprev, ?_, ?_⟩
      · simp [hprev, newHeaderWork, CBlockIndex.ofHeader, CBlockIndex.null]
      · simp [hprev, CBlockIndex.ofHeader, CBlockIndex.null]

theorem workRec_addHeaders (proof : CBlockHeader → Nat)
    (headers : List CBlockHeader) (s : BlockMap × Option Nat)
    (h : WorkRec proof s.1) :
    WorkRec proof (addHeaders proof headers s).1 := by
  induction headers generalizing s with
  | nil => exact h
  | cons hd tl ih =>
    obtain ⟨m, best⟩ := s
    exact ih _ (workRec_addToBlockIndex proof m best hd h)

theorem workRec_empty (proof : CBlockHeader → Nat) : WorkRec proof [] := by
  intro k e ph hk
  exact absurd hk (by simp [lookupIndex])

theorem loadStep_lookup_other (proof : CBlockHeader → Nat)
    (snapshot : Option (Nat × Nat)) (mu : BlockMap × List (Nat × Nat))
    (k k' : Nat) (h : k' ≠ k) :
    lookupIndex (loadStep proof snapshot mu k).1 k' = lookupIndex mu.1 k' := by
  unfold loadStep
  cases hl : lookupIndex mu.1 k with
  | none => rfl
  | some e => exact lookupIndex_updateIndex_other _ _ _ _ h

theorem loadStep_lookup_self (proof : CBlockHeader → Nat)
    (snapshot : Option (Nat × Nat)) (mu : BlockMap × List (Nat × Nat))
    (k : Nat) (e₀ : CBlockIndex) (hl : lookupIndex mu.1 k = some e₀) :
    ∃ e₁, lookupIndex (loadStep proof snapshot mu k).1 k = some e₁ ∧
      e₁.pprev = e₀.pprev ∧ e₁.nHeight = e₀.nHeight ∧ e₁.header = e₀.header ∧
      e₁.nChainWork = ((match e₀.pprev.bind (lookupIndex mu.1) with
        | some p => p.nChainWork
        | none => 0) + proof e₀.header) % 2 ^ 256 := by
  unfold loadStep
  rw [hl]
  exact ⟨_, lookupIndex_updateIndex_self _ _ _ (by rw [hl]; rfl),
    rfl, rfl, rfl, rfl⟩

theorem loadStep_static (proof : CBlockHeader → Nat)
    (snapshot : Option (Nat × Nat)) (mu : BlockMap × List (Nat × Nat))
    (k k' : Nat) :
    (lookupIndex (loadStep proof snapshot mu k).1 k').map
        (fun e => (e.pprev, e.nHeight, e.header)) =
      (lookupIndex mu.1 k').map (fun e => (e.pprev, e.nHeight, e.header)) := by
  by_cases h : k' = k
  · subst h
    cases hl : lookupIndex mu.1 k' with
    | none =>
      unfold loadStep
      simp only [hl]
    | some e =>
      obtain ⟨e₁, he₁, hp, hh, hhd, _⟩ :=
        loadStep_lookup_self proof snapshot mu k' e hl
      rw [he₁]
      simp [hp, hh, hhd]
  · rw [loadStep_lookup_other _ _ _ _ _ h]

theorem loadWorkPass_lookup_notMem (proof : CBlockHeader → Nat)
    (snapshot : Option (Nat × Nat)) (order : List Nat)
    (mu : BlockMap × List (Nat × Nat)) (k : Nat) (h : k ∉ order) :
    lookupIndex (loadWorkPass proof snapshot order mu).1 k =
      lookupIndex mu.1 k := by
  induction order generalizing mu with
  | nil => rfl
  | cons hd tl ih =>
    have h1 : k ∉ tl := fun hm => h (List.mem_cons_of_mem _ hm)
    have h2 : k ≠ hd := fun he => h (he ▸ List.mem_cons_self _ _)
    show lookupIndex (loadWorkPass proof snapshot tl
      (loadStep proof snapshot mu hd)).1 k = _
    rw [ih _ h1, loadStep_lookup_other _ _ _ _ _ h2]

theorem loadWorkPass_static (proof : CBlockHeader → Nat)
    (snapshot : Option (Nat × Nat)) (order : List Nat)
    (mu : BlockMap × List (Nat × Nat)) (k : Nat) :
    (lookupIndex (loadWorkPass proof snapshot order mu).1 k).map
        (fun e => (e.pprev, e.nHeight, e.header)) =
      (lookupIndex mu.1 k).map (fun e => (e.pprev, e.nHeight, e.header)) := by
  induction order generalizing mu with
  | nil => rfl
  | cons hd tl ih =>
    show (lookupIndex (loadWorkPass proof snapshot tl
      (loadStep proof snapshot mu hd)).1 k).map _ = _
    rw [ih, loadStep_static]

theorem heightOnlyComparator_false_iff (a b : CBlockIndex) :
    heightOnlyComparator b a = false ↔ a.nHeight ≤ b.nHeight := by
  simp [heightOnlyComparator]

theorem loadStep_lookup_exists (proof : CBlockHeader → Nat)
    (snapshot : Option (Nat × Nat)) (mu : BlockMap × List (Nat × Nat))
    (k k' : Nat) (e' : CBlockIndex)
    (h : lookupIndex (loadStep proof snapshot mu k).1 k' = some e') :
    ∃ e, lookupIndex mu.1 k' = some e ∧ e.pprev = e'.pprev ∧
      e.nHeight = e'.nHeight ∧ e.header = e'.header := by
  have hst := loadStep_static proof snapshot mu k k'
  rw [h, Option.map_some'] at hst
  cases hm : lookupIndex mu.1 k' with
  | none => rw [hm] at hst; simp at hst
  | some e =>
    rw [hm, Option.map_some'] at hst
    injection hst with hst
    obtain ⟨h1, h23⟩ := Prod.mk.inj hst
    exact ⟨e, rfl, h1.symm, (Prod.mk.inj h23).1.symm, (Prod.mk.inj h23).2.symm⟩

theorem loadStep_lookup_exists' (proof : CBlockHeader → Nat)
    (snapshot : Option (Nat × Nat)) (mu : BlockMap × List (Nat × Nat))
    (k k' : Nat) (e : CBlockIndex) (h : lookupIndex mu.1 k' = some e) :
    ∃ e', lookupIndex (loadStep proof snapshot mu k).1 k' = some e' ∧
      e.pprev = e'.pprev ∧ e.nHeight = e'.nHeight ∧ e.header = e'.header := by
  have hst := loadStep_static proof snapshot mu k k'
  rw [h, Option.map_some'] at hst
  cases hm : lookupIndex (loadStep proof snapshot mu k).1 k' with
  | none => rw [hm] at hst; simp at hst
  | some e' =>
    rw [hm, Option.map_some'] at hst
    injection hst with hst
    obtain ⟨h1, h23⟩ := Prod.mk.inj hst
    exact ⟨e', rfl, h1.symm, (Prod.mk.inj h23).1.symm, (Prod.mk.inj h23).2.symm⟩

theorem linksResolve_loadStep (proof : CBlockHeader → Nat)
    (snapshot : Option (Nat × Nat)) (mu : BlockMap × List (Nat × Nat))
    (k : Nat) (h : LinksResolve mu.1) :
    LinksResolve (loadStep proof snapshot mu k).1 := by
  intro k' e' ph hk hp
  obtain ⟨e, he, hpp, hh, _⟩ := loadStep_lookup_exists proof snapshot mu k k' e' hk
  obtain ⟨p, hp', hlt⟩ := h k' e ph he (by rw [hpp, hp])
  obtain ⟨p', hp'', _, hh2, _⟩ := loadStep_lookup_exists' proof snapshot mu k ph p hp'
  exact ⟨p', hp'', by omega⟩

theorem sortedByHeight_loadStep (proof : CBlockHeader → Nat)
    (snapshot : Option (Nat × Nat)) (mu : BlockMap × List (Nat × Nat))
    (k : Nat) (order : List Nat) (h : SortedByHeight mu.1 order) :
    SortedByHeight (loadStep proof snapshot mu k).1 order := by
  refine h.imp ?_
  intro a b hab ea eb hea heb
  obtain ⟨ea0, hea0, _, hha, _⟩ := loadStep_lookup_exists proof snapshot mu k a ea hea
  obtain ⟨eb0, heb0, _, hhb, _⟩ := loadStep_lookup_exists proof snapshot mu k b eb heb
  have := hab ea0 eb0 hea0 heb0
  rw [heightOnlyComparator_false_iff] at this ⊢
  omega

/-- After the `LoadBlockIndex` derived-field pass over a height-sorted
enumeration of the keys, every entry with a parent link satisfies the
chain-work recurrence with respect to the final map. -/
theorem loadWorkPass_workRec (proof : CBlockHeader → Nat)
    (snapshot : Option (Nat × Nat)) (order : List Nat)
    (mu : BlockMap × List (Nat × Nat))
    (hnodup : order.Nodup) (hlinks : LinksResolve mu.1)
    (hsort : SortedByHeight mu.1 order) :
    ∀ k ∈ order, ∀ e ph,
      lookupIndex (loadWorkPass proof snapshot order mu).1 k = some e →
      e.pprev = some ph →
      ∃ p, lookupIndex (loadWorkPass proof snapshot order mu).1 ph = some p ∧
        e.nChainWork = (p.nChainWork + proof e.header) % 2 ^ 256 := by
  induction order generalizing mu with
  | nil => intro k hk; cases hk
  | cons hd tl ih =>
    intro k hk e ph hke hpe
    rw [List.mem_cons] at hk
    have hpass : loadWorkPass proof snapshot (hd :: tl) mu =
        loadWorkPass proof snapshot tl (loadStep proof snapshot mu hd) := rfl
    rcases hk with hk | hk
    · subst hk
      have hhdtl : k ∉ tl := (List.nodup_cons.mp hnodup).1
      rw [hpass, loadWorkPass_lookup_notMem _ _ _ _ _ hhdtl] at hke
      cases hl : lookupIndex mu.1 k with
      | none =>
        have hst := loadStep_static proof snapshot mu k k
        rw [hl, Option.map_none'] at hst
        rw [Option.map_eq_none'] at hst
        rw [hst] at hke
        exact Option.noConfusion hke
      | some e₀ =>
        obtain ⟨e₁, he₁, hp1, hh1, hhd1, hw1⟩ :=
          loadStep_lookup_self proof snapshot mu k e₀ hl
        rw [he₁] at hke
        injection hke with hke
        subst hke
        have hpe0 : e₀.pprev = some ph := by rw [← hp1]; exact hpe
        obtain ⟨p, hp', hlt⟩ := hlinks k e₀ ph hl hpe0
        have hne : ph ≠ k := by
          intro hcon
          rw [hcon, hl] at hp'
          injection hp' with hp'
          subst hp'
          omega
        have hnotin : ph ∉ tl := by
          intro hmem
          have hrel := (List.pairwise_cons.mp hsort).1 ph hmem e₀ p hl hp'
          rw [heightOnlyComparator_false_iff] at hrel
          omega
        rw [hpass, loadWorkPass_lookup_notMem _ _ _ _ _ hnotin,
          loadStep_lookup_other _ _ _ _ _ hne]
        refine ⟨p, hp', ?_⟩
        rw [hpe0] at hw1
        simp only [Option.bind_some, Option.some_bind, hp'] at hw1
        rw [hw1, hhd1]
    · have hmu' := ih (loadStep proof snapshot mu hd)
        (List.nodup_cons.mp hnodup).2
        (linksResolve_loadStep proof snapshot mu hd hlinks)
        (sortedByHeight_loadStep proof snapshot mu hd tl
          (List.pairwise_cons.mp hsort).2)
      rw [hpass] at hke ⊢
      exact hmu' k hk e ph hke hpe

/-- C10: `InsertBlockIndex` called with the all-zero (null) hash returns no
entry and leaves the block index map unchanged; for every non-null hash it
returns an entry, and a repeated call with the same hash returns the
existing entry without creating a new one. -/
theorem claim_C10_insertBlockIndex (m : BlockMap) (hash : Nat) (h : hash ≠ 0) :
    insertBlockIndex m 0 = (m, none) ∧
    (insertBlockIndex m hash).2.isSome ∧
    (∃ e, lookupIndex (insertBlockIndex m hash).1 hash = some e ∧
      insertBlockIndex (insertBlockIndex m hash).1 hash =
        ((insertBlockIndex m hash).1, some e)) := by
  refine ⟨by simp [insertBlockIndex], ?_, ?_⟩
  · unfold insertBlockIndex
    rw [if_neg h]
    cases hl : lookupIndex m hash <;> simp
  · cases hl : lookupIndex m hash with
    | some e =>
      refine ⟨e, ?_, ?_⟩ <;> simp [insertBlockIndex, h, hl]
    | none =>
      have h1 : (insertBlockIndex m hash).1 = (hash, CBlockIndex.null) :: m := by
        simp [insertBlockIndex, h, hl]
      have h2 : lookupIndex ((hash, CBlockIndex.null) :: m) hash =
          some CBlockIndex.null := by
        simp [lookupIndex]
      refine ⟨CBlockIndex.null, by rw [h1]; exact h2, ?_⟩
      rw [h1]
      simp [insertBlockIndex, h, h2]

/-- Witness for C10 at the empty map and the concrete non-null hash `1`. -/
theorem claim_C10_insertBlockIndex_witness :
    (1 : Nat) ≠ 0 ∧
    (insertBlockIndex ([] : BlockMap) 0 = ([], none) ∧
      (insertBlockIndex ([] : BlockMap) 1).2.isSome ∧
      (∃ e, lookupIndex (insertBlockIndex ([] : BlockMap) 1).1 1 = some e ∧
        insertBlockIndex (insertBlockIndex ([] : BlockMap) 1).1 1 =
          ((insertBlockIndex ([] : BlockMap) 1).1, some e))) :=
  ⟨by decide, claim_C10_insertBlockIndex [] 1 (by decide)⟩

/-- C4: for every sequence of `AddToBlockIndex` calls starting from an empty
index, every resulting entry linked to a parent satisfies
`nChainWork = parent.nChainWork + GetBlockProof(entry)` (in `arith_uint256`
arithmetic) and `nHeight = parent.nHeight + 1`; and the `LoadBlockIndex`
derived-field pass, over a height-sorted enumeration of the keys of a
well-formed loaded index, re-establishes the same work recurrence for the
entries loaded from the store. -/
theorem claim_C4_work_height_recurrence (proof : CBlockHeader → Nat)
    (headers : List CBlockHeader) (snapshot : Option (Nat × Nat))
    (order : List Nat) (mu : BlockMap × List (Nat × Nat))
    (hnodup : order.Nodup) (hlinks : LinksResolve mu.1)
    (hsort : SortedByHeight mu.1 order) :
    WorkRec proof (addHeaders proof headers ([], none)).1 ∧
    (∀ k ∈ order, ∀ e ph,
      lookupIndex (loadWorkPass proof snapshot order mu).1 k = some e →
      e.pprev = some ph →
      ∃ p, lookupIndex (loadWorkPass proof snapshot order mu).1 ph = some p ∧
        e.nChainWork = (p.nChainWork + proof e.header) % 2 ^ 256) :=
  ⟨workRec_addHeaders proof headers ([], none) (workRec_empty proof),
   loadWorkPass_workRec proof snapshot order mu hnodup hlinks hsort⟩

/-- Witness for C4: a two-header chain added to an empty index, and a
single-entry loaded index passed through the derived-field pass. -/
theorem claim_C4_work_height_recurrence_witness :
    ([5] : List Nat).Nodup ∧
    LinksResolve ([(5, CBlockIndex.null)] : BlockMap) ∧
    SortedByHeight ([(5, CBlockIndex.null)] : BlockMap) [5] ∧
    (WorkRec (fun h => h.nBits)
        (addHeaders (fun h => h.nBits)
          [⟨0, 0, 3, 0⟩, ⟨(⟨0, 0, 3, 0⟩ : CBlockHeader).getHash, 1, 4, 0⟩]
          ([], none)).1 ∧
      (∀ k ∈ ([5] : List Nat), ∀ e ph,
        lookupIndex (loadWorkPass (fun h => h.nBits) none [5]
          (([(5, CBlockIndex.null)] : BlockMap), [])).1 k = some e →
        e.pprev = some ph →
        ∃ p, lookupIndex (loadWorkPass (fun h => h.nBits) none [5]
            (([(5, CBlockIndex.null)] : BlockMap), [])).1 ph = some p ∧
          e.nChainWork = (p.nChainWork + (fun (h : CBlockHeader) => h.nBits)
            e.header) % 2 ^ 256)) := by
  have hnodup : ([5] : List Nat).Nodup := by decide
  have hlinks : LinksResolve ([(5, CBlockIndex.null)] : BlockMap) := by
    intro k e ph hk hp
    simp only [lookupIndex] at hk
    by_cases h5 : (5 : Nat) = k
    · rw [if_pos h5] at hk
      injection hk with hk
      subst hk
      exact Option.noConfusion hp
    · rw [if_neg h5] at hk
      exact Option.noConfusion hk
  have hsort : SortedByHeight ([(5, CBlockIndex.null)] : BlockMap) [5] := by
    simp [SortedByHeight]
  exact ⟨hnodup, hlinks, hsort,
    claim_C4_work_height_recurrence (fun h => h.nBits)
      [⟨0, 0, 3, 0⟩, ⟨(⟨0, 0, 3, 0⟩ : CBlockHeader).getHash, 1, 4, 0⟩]
      none [5] (([(5, CBlockIndex.null)] : BlockMap), [])
      hnodup hlinks hsort⟩

/-- C6 (amended): after `AddToBlockIndex` of a previously unknown header, the
best-header pointer is replaced by the new entry iff it was previously null
or the new entry's cumulative work strictly exceeds the current best
header's; when the cumulative works are equal the incumbent best header is
retained (sequence ids are not consulted). -/
theorem claim_C6_best_header (proof : CBlockHeader → Nat) (m : BlockMap)
    (best : Option Nat) (block : CBlockHeader)
    (hnew : lookupIndex m block.getHash = none)
    (hvalid : ∀ bk, best = some bk → (lookupIndex m bk).isSome) :
    ((addToBlockIndex proof m best block).2.1 =
        some (addToBlockIndex proof m best block).2.2 ↔
      best = none ∨ ∃ bk b, best = some bk ∧ lookupIndex m bk = some b ∧
        b.nChainWork < newHeaderWork proof m block) ∧
    (∀ bk b, best = some bk → lookupIndex m bk = some b →
      b.nChainWork = newHeaderWork proof m block →
      (addToBlockIndex proof m best block).2.1 = some bk ∧
        bk ≠ (addToBlockIndex proof m best block).2.2) := by
  cases best with
  | none =>
    constructor
    · simp [addToBlockIndex, hnew]
    · intro bk b hbk
      exact absurd hbk (by simp)
  | some bk =>
    have hb := hvalid bk rfl
    rw [Option.isSome_iff_exists] at hb
    obtain ⟨b, hb⟩ := hb
    have hbkne : bk ≠ block.getHash := by
      intro hcon
      rw [hcon, hnew] at hb
      exact Option.noConfusion hb
    by_cases hlt : b.nChainWork < newHeaderWork proof m block
    · constructor
      · simp only [addToBlockIndex, hnew, hb]
        simp only [Option.getD_some, if_pos hlt]
        simp only [true_iff]
        exact Or.inr ⟨bk, b, rfl, hb, hlt⟩
      · intro bk' b' hbk' hb' heq
        injection hbk' with hbk'
        subst hbk'
        rw [hb] at hb'
        injection hb' with hb'
        subst hb'
        omega
    · constructor
      · simp only [addToBlockIndex, hnew, hb]
        simp only [Option.getD_some, if_neg hlt]
        constructor
        · intro hcon
          injection hcon with hcon
          exact absurd hcon hbkne
        · rintro (hcon | ⟨bk', b', hbk', hb', hlt'⟩)
          · exact Option.noConfusion hcon
          · injection hbk' with hbk'
            subst hbk'
            rw [hb] at hb'
            injection hb' with hb'
            subst hb'
            omega
      · intro bk' b' hbk' hb' heq
        injection hbk' with hbk'
        subst hbk'
        constructor
        · simp only [addToBlockIndex, hnew, hb, Option.getD_some, if_neg hlt]
        · exact fun hcon => hbkne (by
            simpa [addToBlockIndex, hnew] using hcon)

/-- Witness for C6 (amended): adding a header to an empty index with no best
header tracked yet. -/
theorem claim_C6_best_header_witness :
    lookupIndex ([] : BlockMap) (⟨0, 0, 0, 0⟩ : CBlockHeader).getHash = none ∧
    (((addToBlockIndex (fun _ => 1) [] none ⟨0, 0, 0, 0⟩).2.1 =
        some (addToBlockIndex (fun _ => 1) [] none ⟨0, 0, 0, 0⟩).2.2 ↔
      (none : Option Nat) = none ∨ ∃ bk b, (none : Option Nat) = some bk ∧
        lookupIndex ([] : BlockMap) bk = some b ∧
        b.nChainWork < newHeaderWork (fun _ => 1) [] ⟨0, 0, 0, 0⟩) ∧
    (∀ bk b, (none : Option Nat) = some bk →
      lookupIndex ([] : BlockMap) bk = some b →
      b.nChainWork = newHeaderWork (fun _ => 1) [] ⟨0, 0, 0, 0⟩ →
      (addToBlockIndex (fun _ => 1) [] none ⟨0, 0, 0, 0⟩).2.1 = some bk ∧
        bk ≠ (addToBlockIndex (fun _ => 1) [] none ⟨0, 0, 0, 0⟩).2.2)) :=
  ⟨by decide, claim_C6_best_header (fun _ => 1) [] none ⟨0, 0, 0, 0⟩ (by decide)
    (fun bk h => absurd h (by simp))⟩

/-- C6 counterexample: an incumbent best header with cumulative work equal to
the newly added entry's but a larger insertion sequence id (`7` versus the
new entry's `0`).  The claimed tie-break in favor of the node with the
earliest insertion sequence number would make the new entry the best header;
`AddToBlockIndex` instead retains the incumbent. -/
theorem claim_C6_counterexample :
    (let b : CBlockIndex :=
      { CBlockIndex.null with nChainWork := 9, nSequenceId := 7 }
    let r := addToBlockIndex (fun _ => 9) [(5, b)] (some 5) ⟨0, 0, 0, 0⟩
    lookupIndex [(5, b)] (⟨0, 0, 0, 0⟩ : CBlockHeader).getHash = none ∧
    (lookupIndex r.1 r.2.2).map (fun e => (e.nChainWork, e.nSequenceId)) =
      some (9, 0) ∧
    b.nChainWork = 9 ∧ b.nSequenceId = 7 ∧
    r.2.1 = some 5 ∧
    r.2.1 ≠ some r.2.2) := by
  decide

/-- C5: `CBlockIndexWorkComparator` is a strict total order over block index
nodes: irreflexive, asymmetric, transitive, and total in the sense that for
distinct nodes exactly one of `cmp(a,b)`, `cmp(b,a)` holds. -/
theorem claim_C5_workComparator_strict_total_order (a b c : WorkCmpNode)
    (h : a ≠ b) :
    workComparator a a = false ∧
    (workComparator a b = true → workComparator b a = false) ∧
    (workComparator a b = true → workComparator b c = true →
      workComparator a c = true) ∧
    ((workComparator a b = true ∨ workComparator b a = true) ∧
      ¬(workComparator a b = true ∧ workComparator b a = true)) :=
  ⟨workComparator_irrefl a,
   workComparator_asymm a b,
   workComparator_trans a b c,
   workComparator_total a b h,
   fun ⟨h1, h2⟩ => by rw [workComparator_asymm a b h1] at h2; cases h2⟩

/-- Witness for C5 at three concrete nodes with distinct works. -/
theorem claim_C5_workComparator_strict_total_order_witness :
    (⟨1, 0, 0⟩ : WorkCmpNode) ≠ ⟨2, 0, 0⟩ ∧
    (workComparator ⟨1, 0, 0⟩ ⟨1, 0, 0⟩ = false ∧
     (workComparator ⟨1, 0, 0⟩ ⟨2, 0, 0⟩ = true →
       workComparator ⟨2, 0, 0⟩ ⟨1, 0, 0⟩ = false) ∧
     (workComparator ⟨1, 0, 0⟩ ⟨2, 0, 0⟩ = true →
       workComparator ⟨2, 0, 0⟩ ⟨3, 0, 0⟩ = true →
       workComparator ⟨1, 0, 0⟩ ⟨3, 0, 0⟩ = true) ∧
     ((workComparator ⟨1, 0, 0⟩ ⟨2, 0, 0⟩ = true ∨
        workComparator ⟨2, 0, 0⟩ ⟨1, 0, 0⟩ = true) ∧
      ¬(workComparator ⟨1, 0, 0⟩ ⟨2, 0, 0⟩ = true ∧
        workComparator ⟨2, 0, 0⟩ ⟨1, 0, 0⟩ = true))) :=
  ⟨by decide, claim_C5_workComparator_strict_total_order
    ⟨1, 0, 0⟩ ⟨2, 0, 0⟩ ⟨3, 0, 0⟩ (by decide)⟩

theorem cursorOf_setCursor_same (st : BMState) (ty : BlockfileType)
    (c : BlockfileCursor) : (st.setCursor ty c).cursorOf ty = some c := by
  cases ty <;> rfl

theorem cursorOf_setCursor_other (st : BMState) (ty : BlockfileType)
    (c : BlockfileCursor) :
    (st.setCursor ty c).cursorOf ty.other = st.cursorOf ty.other := by
  cases ty <;> rfl

theorem cursorOf_resizeInfo (st : BMState) (n : Nat) (ty : BlockfileType) :
    (st.resizeInfo n).cursorOf ty = st.cursorOf ty := by
  unfold BMState.resizeInfo
  split <;> cases ty <;> rfl

theorem cursorOf_setInfo (st : BMState) (i : Nat) (info : CBlockFileInfo)
    (ty : BlockfileType) :
    (st.setInfo i info).cursorOf ty = st.cursorOf ty := by
  cases ty <;> rfl

theorem maxBlockfileNum_resizeInfo (st : BMState) (n : Nat) :
    (st.resizeInfo n).maxBlockfileNum = st.maxBlockfileNum := by
  unfold BMState.resizeInfo
  split <;> rfl

theorem maxBlockfileNum_setInfo (st : BMState) (i : Nat)
    (info : CBlockFileInfo) :
    (st.setInfo i info).maxBlockfileNum = st.maxBlockfileNum := rfl

theorem le_maxBlockfileNum (st : BMState) (ty : BlockfileType)
    (c : BlockfileCursor) (h : st.cursorOf ty = some c) :
    c.file_num ≤ st.maxBlockfileNum := by
  cases ty with
  | NORMAL =>
    simp only [BMState.cursorOf] at h
    simp only [BMState.maxBlockfileNum, h, Option.getD_some]
    omega
  | ASSUMED =>
    simp only [BMState.cursorOf] at h
    simp only [BMState.maxBlockfileNum, h, Option.getD_some]
    omega

theorem maxBlockfileNum_setCursor_gt (st : BMState) (ty : BlockfileType)
    (c : BlockfileCursor) (h : st.maxBlockfileNum < c.file_num) :
    (st.setCursor ty c).maxBlockfileNum = c.file_num := by
  cases ty <;>
    (simp only [BMState.setCursor, BMState.maxBlockfileNum,
      Option.getD_some] at h ⊢; omega)

theorem findBlockPosLoop_spec (ty : BlockfileType) (nAddSize maxSize : Nat) :
    ∀ fuel (st : BMState) (nFile : Nat) (fin : Bool) (c : BlockfileCursor),
    st.cursorOf ty = some c → c.file_num = nFile →
    (∃ c', (findBlockPosLoop ty nAddSize maxSize fuel st nFile fin).1.cursorOf
        ty = some c' ∧
      c'.file_num = (findBlockPosLoop ty nAddSize maxSize fuel st nFile fin).2.1) ∧
    (findBlockPosLoop ty nAddSize maxSize fuel st nFile fin).1.cursorOf
        ty.other = st.cursorOf ty.other ∧
    st.maxBlockfileNum ≤
      (findBlockPosLoop ty nAddSize maxSize fuel st nFile fin).1.maxBlockfileNum ∧
    ((findBlockPosLoop ty nAddSize maxSize fuel st nFile fin).1 = st ∧
        (findBlockPosLoop ty nAddSize maxSize fuel st nFile fin).2.1 = nFile ∨
      st.maxBlockfileNum <
        (findBlockPosLoop ty nAddSize maxSize fuel st nFile fin).2.1) := by
  intro fuel
  induction fuel with
  | zero =>
    intro st nFile fin c hc hcf
    exact ⟨⟨c, hc, hcf⟩, rfl, le_refl _, Or.inl ⟨rfl, rfl⟩⟩
  | succ fuel ih =>
    intro st nFile fin c hc hcf
    by_cases hcond : maxSize ≤ (st.infoAt nFile).nSize + nAddSize
    · have heq : findBlockPosLoop ty nAddSize maxSize (fuel + 1) st nFile fin =
          findBlockPosLoop ty nAddSize maxSize fuel
            ((st.setCursor ty ⟨st.maxBlockfileNum + 1, 0⟩).resizeInfo
              (st.maxBlockfileNum + 1 + 1))
            (st.maxBlockfileNum + 1)
            ((st.infoAt nFile).nHeightLast ==
              ((st.cursorOf ty).getD ⟨0, 0⟩).undo_height) := by
        simp only [findBlockPosLoop]
        rw [if_pos hcond]
      have hmax : ((st.setCursor ty ⟨st.maxBlockfileNum + 1, 0⟩).resizeInfo
          (st.maxBlockfileNum + 1 + 1)).maxBlockfileNum =
            st.maxBlockfileNum + 1 := by
        rw [maxBlockfileNum_resizeInfo]
        exact maxBlockfileNum_setCursor_gt st ty ⟨st.maxBlockfileNum + 1, 0⟩
          (Nat.lt_succ_self _)
      have hc' : ((st.setCursor ty ⟨st.maxBlockfileNum + 1, 0⟩).resizeInfo
          (st.maxBlockfileNum + 1 + 1)).cursorOf ty =
            some ⟨st.maxBlockfileNum + 1, 0⟩ := by
        rw [cursorOf_resizeInfo, cursorOf_setCursor_same]
      obtain ⟨h1, h2, h3, h4⟩ := ih _ (st.maxBlockfileNum + 1) _
        ⟨st.maxBlockfileNum + 1, 0⟩ hc' rfl
      rw [heq]
      refine ⟨h1, ?_, ?_, ?_⟩
      · rw [h2, cursorOf_resizeInfo, cursorOf_setCursor_other]
      · rw [hmax] at h3
        omega
      · rw [hmax] at h4
        rcases h4 with ⟨_, h4⟩ | h4
        · exact Or.inr (by omega)
        · exact Or.inr (by omega)
    · have heq : findBlockPosLoop ty nAddSize maxSize (fuel + 1) st nFile fin =
          (st, nFile, fin) := by
        unfold findBlockPosLoop
        rw [if_neg hcond]
      rw [heq]
      exact ⟨⟨c, hc, hcf⟩, rfl, le_refl _, Or.inl ⟨rfl, rfl⟩⟩

theorem maxBlockfileNum_setCursor_samefile (st : BMState) (ty : BlockfileType)
    (c : BlockfileCursor) (nF u : Nat) (h : st.cursorOf ty = some c)
    (hf : c.file_num = nF) :
    (st.setCursor ty ⟨nF, u⟩).maxBlockfileNum = st.maxBlockfileNum := by
  cases ty <;>
    (simp only [BMState.cursorOf] at h
     simp [BMState.setCursor, BMState.maxBlockfileNum, h, ← hf])

/-- Specification of a successful `fKnown = false` tail of `FindBlockPos`,
relative to a state whose stream cursor exists: the returned position's file
is the stream's cursor file afterwards; the other stream's cursor is
untouched; the maximum file number in use does not decrease; and the
returned file number is either the stream's prior cursor file or a fresh
number strictly above every file number previously in use. -/
theorem findBlockPosUnknown_spec (st : BMState) (nAddSize nHeight : Nat)
    (ty : BlockfileType) (nTime : Nat) (fastPrune : Bool)
    (c : BlockfileCursor) (st' : BMState) (pos' : FlatFilePos)
    (hc : st.cursorOf ty = some c)
    (h : findBlockPosUnknown st nAddSize nHeight ty nTime fastPrune
      c.file_num = some (st', pos')) :
    (∃ c', st'.cursorOf ty = some c' ∧ c'.file_num = pos'.nFile) ∧
    st'.cursorOf ty.other = st.cursorOf ty.other ∧
    st.maxBlockfileNum ≤ st'.maxBlockfileNum ∧
    (c.file_num = pos'.nFile ∨ st.maxBlockfileNum < pos'.nFile) := by
  unfold findBlockPosUnknown at h
  by_cases hms : (if fastPrune then
      (if nAddSize ≥ 0x10000 then nAddSize + 1 else 0x10000)
      else MAX_BLOCKFILE_SIZE) ≤ nAddSize
  · rw [if_pos hms] at h
    exact Option.noConfusion h
  · rw [if_neg hms] at h
    have hcr : (st.resizeInfo (c.file_num + 1)).cursorOf ty = some c := by
      rw [cursorOf_resizeInfo]
      exact hc
    obtain ⟨⟨c₂, hc₂, hc₂f⟩, hoth₂, hmax₂, hdich₂⟩ :=
      findBlockPosLoop_spec ty nAddSize _
        ((st.resizeInfo (c.file_num + 1)).m_blockfile_info.length + 2)
        (st.resizeInfo (c.file_num + 1)) c.file_num false c hcr rfl
    simp only [Option.some.injEq] at h
    obtain ⟨hst, hpos⟩ := Prod.mk.inj h
    subst hst
    subst hpos
    rw [maxBlockfileNum_resizeInfo] at hmax₂ hdich₂
    constructor
    · rw [cursorOf_setInfo, cursorOf_setInfo]
      by_cases hmv :
          (findBlockPosLoop ty nAddSize
            (if fastPrune then
              (if nAddSize ≥ 0x10000 then nAddSize + 1 else 0x10000)
              else MAX_BLOCKFILE_SIZE)
            ((st.resizeInfo (c.file_num + 1)).m_blockfile_info.length + 2)
            (st.resizeInfo (c.file_num + 1)) c.file_num false).2.1 ≠
          c.file_num
      · rw [if_pos hmv, cursorOf_setCursor_same]
        exact ⟨_, rfl, rfl⟩
      · rw [if_neg hmv]
        exact ⟨c₂, hc₂, hc₂f⟩
    constructor
    · rw [cursorOf_setInfo, cursorOf_setInfo]
      by_cases hmv :
          (findBlockPosLoop ty nAddSize
            (if fastPrune then
              (if nAddSize ≥ 0x10000 then nAddSize + 1 else 0x10000)
              else MAX_BLOCKFILE_SIZE)
            ((st.resizeInfo (c.file_num + 1)).m_blockfile_info.length + 2)
            (st.resizeInfo (c.file_num + 1)) c.file_num false).2.1 ≠
          c.file_num
      · rw [if_pos hmv, cursorOf_setCursor_other, hoth₂, cursorOf_resizeInfo]
      · rw [if_neg hmv, hoth₂, cursorOf_resizeInfo]
    constructor
    · rw [maxBlockfileNum_setInfo, maxBlockfileNum_setInfo]
      by_cases hmv :
          (findBlockPosLoop ty nAddSize
            (if fastPrune then
              (if nAddSize ≥ 0x10000 then nAddSize + 1 else 0x10000)
              else MAX_BLOCKFILE_SIZE)
            ((st.resizeInfo (c.file_num + 1)).m_blockfile_info.length + 2)
            (st.resizeInfo (c.file_num + 1)) c.file_num false).2.1 ≠
          c.file_num
      · rw [if_pos hmv,
          maxBlockfileNum_setCursor_samefile _ ty c₂ _ 0 hc₂ hc₂f]
        omega
      · rw [if_neg hmv]
        omega
    · rcases hdich₂ with ⟨_, hsame⟩ | hfresh
      · exact Or.inl (by dsimp only; omega)
      · exact Or.inr (by dsimp only; omega)

/-- Specification of a successful `fKnown = false` `FindBlockPos` call. -/
theorem findBlockPos_step (st : BMState) (pos : FlatFilePos)
    (nAddSize nHeight : Nat) (ty : BlockfileType) (nTime : Nat)
    (fastPrune : Bool) (st' : BMState) (pos' : FlatFilePos)
    (h : findBlockPos st pos nAddSize nHeight ty nTime false fastPrune =
      some (st', pos')) :
    (∃ c', st'.cursorOf ty = some c' ∧ c'.file_num = pos'.nFile) ∧
    st'.cursorOf ty.other = st.cursorOf ty.other ∧
    st.maxBlockfileNum ≤ st'.maxBlockfileNum ∧
    ((∃ c, st.cursorOf ty = some c ∧ c.file_num = pos'.nFile) ∨
      st.maxBlockfileNum < pos'.nFile) := by
  unfold findBlockPos at h
  by_cases htop : st.cursorOf ty = none ∧ ty = BlockfileType.NORMAL
  · rw [if_pos htop] at h
    exact Option.noConfusion h
  · rw [if_neg htop] at h
    cases hcur : st.cursorOf ty with
    | none =>
      simp only [hcur, cursorOf_setCursor_same, Option.getD_some,
        Bool.false_eq_true, if_false] at h
      obtain ⟨hc1, hc2, hc3, hc4⟩ := findBlockPosUnknown_spec
        (st.setCursor ty ⟨st.maxBlockfileNum + 1, 0⟩) nAddSize nHeight ty
        nTime fastPrune ⟨st.maxBlockfileNum + 1, 0⟩ st' pos'
        (cursorOf_setCursor_same st ty _) h
      refine ⟨hc1, ?_, ?_, ?_⟩
      · rw [hc2, cursorOf_setCursor_other]
      · rw [maxBlockfileNum_setCursor_gt st ty _ (Nat.lt_succ_self _)] at hc3
        dsimp only at hc3
        omega
      · rcases hc4 with hc4 | hc4
        · exact Or.inr (by dsimp only at hc4; omega)
        · rw [maxBlockfileNum_setCursor_gt st ty _ (Nat.lt_succ_self _)] at hc4
          exact Or.inr (by dsimp only at hc4; omega)
    | some c =>
      simp only [hcur, Option.getD_some, Bool.false_eq_true, if_false] at h
      obtain ⟨hc1, hc2, hc3, hc4⟩ := findBlockPosUnknown_spec st nAddSize
        nHeight ty nTime fastPrune c st' pos' hcur h
      refine ⟨hc1, hc2, hc3, ?_⟩
      rcases hc4 with hc4 | hc4
      · exact Or.inl ⟨c, rfl, hc4⟩
      · exact Or.inr hc4

theorem cursorOf_eq_normal (st : BMState) :
    st.cursorOf BlockfileType.NORMAL = st.normal_cursor := rfl

theorem cursorOf_eq_assumed (st : BMState) :
    st.cursorOf BlockfileType.ASSUMED = st.assumed_cursor := rfl

/-- `CursorsSeparated` is preserved by a successful `fKnown = false`
`FindBlockPos` call. -/
theorem findBlockPos_sep (st : BMState) (pos : FlatFilePos)
    (nAddSize nHeight : Nat) (ty : BlockfileType) (nTime : Nat)
    (fastPrune : Bool) (st' : BMState) (pos' : FlatFilePos)
    (h : findBlockPos st pos nAddSize nHeight ty nTime false fastPrune =
      some (st', pos'))
    (hsep : CursorsSeparated st) : CursorsSeparated st' := by
  obtain ⟨⟨c', hc', hcf'⟩, hoth, hmax, hdich⟩ :=
    findBlockPos_step st pos nAddSize nHeight ty nTime fastPrune st' pos' h
  intro cn ca hn ha
  cases ty with
  | NORMAL =>
    rw [cursorOf_eq_normal] at hc'
    rw [hn] at hc'
    injection hc' with hc'
    subst hc'
    have hoth' : st'.assumed_cursor = st.assumed_cursor := hoth
    rw [ha] at hoth'
    rcases hdich with ⟨c0, hc0, hc0f⟩ | hfresh
    · have := hsep c0 ca hc0 hoth'.symm
      omega
    · have hle := le_maxBlockfileNum st BlockfileType.ASSUMED ca hoth'.symm
      omega
  | ASSUMED =>
    rw [cursorOf_eq_assumed] at hc'
    rw [ha] at hc'
    injection hc' with hc'
    subst hc'
    have hoth' : st'.normal_cursor = st.normal_cursor := hoth
    rw [hn] at hoth'
    rcases hdich with ⟨c0, hc0, hc0f⟩ | hfresh
    · have := hsep cn c0 hoth'.symm hc0
      omega
    · have hle := le_maxBlockfileNum st BlockfileType.NORMAL cn hoth'.symm
      omega

/-- Presence of the NORMAL cursor is preserved by a successful
`fKnown = false` `FindBlockPos` call. -/
theorem findBlockPos_normal_present (st : BMState) (pos : FlatFilePos)
    (nAddSize nHeight : Nat) (ty : BlockfileType) (nTime : Nat)
    (fastPrune : Bool) (st' : BMState) (pos' : FlatFilePos)
    (h : findBlockPos st pos nAddSize nHeight ty nTime false fastPrune =
      some (st', pos'))
    (hp : st.normal_cursor.isSome) : st'.normal_cursor.isSome := by
  obtain ⟨⟨c', hc', _⟩, hoth, _, _⟩ :=
    findBlockPos_step st pos nAddSize nHeight ty nTime fastPrune st' pos' h
  cases ty with
  | NORMAL =>
    rw [cursorOf_eq_normal] at hc'
    rw [hc']
    rfl
  | ASSUMED =>
    have hoth' : st'.normal_cursor = st.normal_cursor := hoth
    rw [hoth']
    exact hp

theorem other_of_ne (ty ty' : BlockfileType) (h : ty' ≠ ty) : ty' = ty.other := by
  cases ty <;> cases ty' <;> first | rfl | exact absurd rfl h

theorem runFindBlockPos_spec (fastPrune : Bool) :
    ∀ (reqs : List FBPRequest) (st : BMState),
    st.normal_cursor.isSome → CursorsSeparated st →
    OutputsSpec st (runFindBlockPos fastPrune reqs st) ∧
    (∀ f, (BlockfileType.NORMAL, f) ∈ runFindBlockPos fastPrune reqs st →
      (BlockfileType.ASSUMED, f) ∈ runFindBlockPos fastPrune reqs st → False) := by
  intro reqs
  induction reqs with
  | nil =>
    intro st _ _
    constructor
    · intro ty f hf
      exact absurd hf (by simp [runFindBlockPos])
    · intro f hf
      exact absurd hf (by simp [runFindBlockPos])
  | cons r rest ih =>
    intro st hnp hsep
    cases hcall : findBlockPos st ⟨0, 0⟩ r.nAddSize r.nHeight r.ty r.nTime
      false fastPrune with
    | none =>
      have houts : runFindBlockPos fastPrune (r :: rest) st = [] := by
        simp only [runFindBlockPos, hcall]
      rw [houts]
      constructor
      · intro ty f hf
        exact absurd hf (by simp)
      · intro f hf
        exact absurd hf (by simp)
    | some stpos =>
      obtain ⟨st', pos'⟩ := stpos
      have houts : runFindBlockPos fastPrune (r :: rest) st =
          (r.ty, pos'.nFile) :: runFindBlockPos fastPrune rest st' := by
        simp only [runFindBlockPos, hcall]
      obtain ⟨⟨c', hc', hcf'⟩, hoth, hmax, hdich⟩ :=
        findBlockPos_step st ⟨0, 0⟩ r.nAddSize r.nHeight r.ty r.nTime
          fastPrune st' pos' hcall
      have hsep' : CursorsSeparated st' :=
        findBlockPos_sep st ⟨0, 0⟩ r.nAddSize r.nHeight r.ty r.nTime
          fastPrune st' pos' hcall hsep
      have hnp' : st'.normal_cursor.isSome :=
        findBlockPos_normal_present st ⟨0, 0⟩ r.nAddSize r.nHeight r.ty
          r.nTime fastPrune st' pos' hcall hnp
      obtain ⟨ihout, ihdisj⟩ := ih st' hnp' hsep'
      have houtspec : OutputsSpec st
          ((r.ty, pos'.nFile) :: runFindBlockPos fastPrune rest st') := by
        intro ty f hf
        rw [List.mem_cons] at hf
        rcases hf with hf | hf
        · obtain ⟨hty, hfe⟩ := Prod.mk.inj hf
          subst hty
          subst hfe
          exact hdich
        · have htl := ihout ty f hf
          by_cases hty : ty = r.ty
          · subst hty
            rcases htl with ⟨c'', hc'', hcf''⟩ | hfr
            · rw [hc'] at hc''
              injection hc'' with hc''
              subst hc''
              rw [hcf'] at hcf''
              subst hcf''
              exact hdich
            · exact Or.inr (by omega)
          · have hty' := other_of_ne r.ty ty hty
            subst hty'
            rcases htl with ⟨c'', hc'', hcf''⟩ | hfr
            · rw [hoth] at hc''
              exact Or.inl ⟨c'', hc'', hcf''⟩
            · exact Or.inr (by omega)
      rw [houts]
      refine ⟨houtspec, ?_⟩
      intro f hfn hfa
      rw [List.mem_cons] at hfn hfa
      rcases hfn with hfn | hfn <;> rcases hfa with hfa | hfa
      · obtain ⟨h1, _⟩ := Prod.mk.inj hfn
        obtain ⟨h2, _⟩ := Prod.mk.inj hfa
        rw [← h1] at h2
        exact BlockfileType.noConfusion h2
      · -- head is the NORMAL output, an ASSUMED output with the same file
        -- number appears later
        obtain ⟨h1, h2⟩ := Prod.mk.inj hfn
        have hassumed := ihout BlockfileType.ASSUMED f hfa
        rcases hassumed with ⟨ca, hca, hcaf⟩ | hfr
        · have hcn : st'.cursorOf BlockfileType.NORMAL = some c' := by
            rw [← h1] at hc'; exact hc'
          exact hsep' c' ca hcn hca (by omega)
        · have : c'.file_num ≤ st'.maxBlockfileNum :=
            le_maxBlockfileNum st' r.ty c' hc'
          omega
      · -- head is the ASSUMED output, a NORMAL output with the same file
        -- number appears later
        obtain ⟨h1, h2⟩ := Prod.mk.inj hfa
        have hnormal := ihout BlockfileType.NORMAL f hfn
        rcases hnormal with ⟨cn, hcn, hcnf⟩ | hfr
        · have hca : st'.cursorOf BlockfileType.ASSUMED = some c' := by
            rw [← h1] at hc'; exact hc'
          exact hsep' cn c' hcn hca (by omega)
        · have : c'.file_num ≤ st'.maxBlockfileNum :=
            le_maxBlockfileNum st' r.ty c' hc'
          omega
      · exact ihdisj f hfn hfa

theorem initCursorStep_cases (sb : Option Nat) (st : BMState) (i : Nat) :
    ∃ ty, initCursorStep sb st i = st.setCursor ty ⟨i, 0⟩ := by
  unfold initCursorStep
  cases sb
  · exact ⟨_, rfl⟩
  · dsimp only
    split
    · exact ⟨_, rfl⟩
    · exact ⟨_, rfl⟩

theorem initCursorsFold_inv (sb : Option Nat) (st₀ : BMState)
    (hn : st₀.normal_cursor = none) (ha : st₀.assumed_cursor = none) :
    ∀ n, CursorBound ((List.range n).foldl (initCursorStep sb) st₀) n ∧
      CursorsSeparated ((List.range n).foldl (initCursorStep sb) st₀) := by
  intro n
  induction n with
  | zero =>
    refine ⟨⟨?_, ?_⟩, ?_⟩
    · intro c hc
      rw [List.range_zero, List.foldl_nil, hn] at hc
      exact Option.noConfusion hc
    · intro c hc
      rw [List.range_zero, List.foldl_nil, ha] at hc
      exact Option.noConfusion hc
    · intro cn ca hcn hca
      rw [List.range_zero, List.foldl_nil, hn] at hcn
      exact Option.noConfusion hcn
  | succ n ihn =>
    rw [List.range_succ, List.foldl_append, List.foldl_cons, List.foldl_nil]
    obtain ⟨⟨ihbn, ihba⟩, ihsep⟩ := ihn
    obtain ⟨ty, hty⟩ := initCursorStep_cases sb
      ((List.range n).foldl (initCursorStep sb) st₀) n
    rw [hty]
    cases ty with
    | NORMAL =>
      refine ⟨⟨?_, ?_⟩, ?_⟩
      · intro c hc
        have : some (⟨n, 0⟩ : BlockfileCursor) = some c := hc
        injection this with this
        subst this
        exact Nat.lt_succ_self n
      · intro c hc
        have hc' : ((List.range n).foldl (initCursorStep sb)
            st₀).assumed_cursor = some c := hc
        exact Nat.lt_trans (ihba c hc') (Nat.lt_succ_self n)
      · intro cn ca hcn hca
        have h1 : some (⟨n, 0⟩ : BlockfileCursor) = some cn := hcn
        injection h1 with h1
        subst h1
        have hca' : ((List.range n).foldl (initCursorStep sb)
            st₀).assumed_cursor = some ca := hca
        have := ihba ca hca'
        simp only []
        omega
    | ASSUMED =>
      refine ⟨⟨?_, ?_⟩, ?_⟩
      · intro c hc
        have hc' : ((List.range n).foldl (initCursorStep sb)
            st₀).normal_cursor = some c := hc
        exact Nat.lt_trans (ihbn c hc') (Nat.lt_succ_self n)
      · intro c hc
        have : some (⟨n, 0⟩ : BlockfileCursor) = some c := hc
        injection this with this
        subst this
        exact Nat.lt_succ_self n
      · intro cn ca hcn hca
        have h1 : some (⟨n, 0⟩ : BlockfileCursor) = some ca := hca
        injection h1 with h1
        subst h1
        have hcn' : ((List.range n).foldl (initCursorStep sb)
            st₀).normal_cursor = some cn := hcn
        have := ihbn cn hcn'
        simp only []
        omega

/-- Cursor separation holds immediately after the load-time cursor
initialization, whatever the file table and snapshot configuration. -/
theorem initCursors_sep (infos : List CBlockFileInfo) (sb : Option Nat) :
    CursorsSeparated (initCursors infos sb) := by
  unfold initCursors
  obtain ⟨⟨hbn, hba⟩, hsep⟩ := initCursorsFold_inv sb
    { m_blockfile_info := infos, normal_cursor := none, assumed_cursor := none }
    rfl rfl infos.length
  dsimp only
  split
  · intro cn ca hcn hca
    have hcn' : ((List.range infos.length).foldl (initCursorStep sb)
        { m_blockfile_info := infos, normal_cursor := none,
          assumed_cursor := none }).normal_cursor = some cn := hcn
    have hca' : some (⟨((List.range infos.length).foldl (initCursorStep sb)
        { m_blockfile_info := infos, normal_cursor := none,
          assumed_cursor := none }).maxBlockfileNum + 1, 0⟩ :
          BlockfileCursor) = some ca := hca
    injection hca' with hca'
    subst hca'
    have := le_maxBlockfileNum _ BlockfileType.NORMAL cn hcn'
    simp only []
    omega
  · exact hsep

theorem setCursor_info (st : BMState) (ty : BlockfileType) (c : BlockfileCursor) :
    (st.setCursor ty c).m_blockfile_info = st.m_blockfile_info := by
  cases ty <;> rfl

theorem initCursorsFold_info (sb : Option Nat) (st₀ : BMState) :
    ∀ n, ((List.range n).foldl (initCursorStep sb) st₀).m_blockfile_info =
      st₀.m_blockfile_info := by
  intro n
  induction n with
  | zero => rfl
  | succ n ih =>
    rw [List.range_succ, List.foldl_append, List.foldl_cons, List.foldl_nil]
    obtain ⟨ty, hty⟩ := initCursorStep_cases sb
      ((List.range n).foldl (initCursorStep sb) st₀) n
    rw [hty, setCursor_info]
    exact ih

theorem initCursorStep_normal (base : Nat) (st : BMState) (i : Nat)
    (h : ¬ (st.infoAt i).nHeightLast > base) :
    initCursorStep (some base) st i =
      st.setCursor BlockfileType.NORMAL ⟨i, 0⟩ := by
  unfold initCursorStep
  dsimp only
  rw [if_neg h]

theorem initCursorsFold_all_normal (base : Nat) (st₀ : BMState)
    (ha : st₀.assumed_cursor = none) :
    ∀ n, (∀ i, i < n →
      (st₀.m_blockfile_info.getD i CBlockFileInfo.setNull).nHeightLast ≤ base) →
    ((List.range n).foldl (initCursorStep (some base)) st₀).assumed_cursor =
      none ∧
    (0 < n → ((List.range n).foldl (initCursorStep (some base))
      st₀).normal_cursor = some ⟨n - 1, 0⟩) := by
  intro n
  induction n with
  | zero =>
    intro _
    exact ⟨ha, fun h => absurd h (by omega)⟩
  | succ n ih =>
    intro hh
    obtain ⟨iha, _⟩ := ih (fun i hi => hh i (Nat.lt_trans hi (Nat.lt_succ_self n)))
    rw [List.range_succ, List.foldl_append, List.foldl_cons, List.foldl_nil]
    have hinfo : ((List.range n).foldl (initCursorStep (some base))
        st₀).infoAt n =
        st₀.m_blockfile_info.getD n CBlockFileInfo.setNull := by
      unfold BMState.infoAt
      rw [initCursorsFold_info]
    have hstep := initCursorStep_normal base
      ((List.range n).foldl (initCursorStep (some base)) st₀) n
      (by rw [hinfo]; exact Nat.not_lt.mpr (hh n (Nat.lt_succ_self n)))
    rw [hstep]
    exact ⟨iha, fun _ => rfl⟩

/-- When a snapshot is active but no file record extends past the snapshot
base height, the load-time initialization seeds the ASSUMED cursor strictly
past every existing file number. -/
theorem initCursors_assumed_seeded (infos : List CBlockFileInfo) (base : Nat)
    (hall : ∀ i, i < infos.length →
      (infos.getD i CBlockFileInfo.setNull).nHeightLast ≤ base) :
    ∃ ca, (initCursors infos (some base)).assumed_cursor = some ca ∧
      ∀ i, i < infos.length → i < ca.file_num := by
  unfold initCursors
  dsimp only
  obtain ⟨hassumed, hnormal⟩ := initCursorsFold_all_normal base
    { m_blockfile_info := infos, normal_cursor := none, assumed_cursor := none }
    rfl infos.length hall
  rw [if_pos ⟨rfl, hassumed⟩]
  refine ⟨_, rfl, ?_⟩
  intro i hi
  have h0 : 0 < infos.length := Nat.lt_of_le_of_lt (Nat.zero_le i) hi
  have hn := hnormal h0
  have hle := le_maxBlockfileNum
    ((List.range infos.length).foldl (initCursorStep (some base))
      { m_blockfile_info := infos, normal_cursor := none,
        assumed_cursor := none })
    BlockfileType.NORMAL ⟨infos.length - 1, 0⟩ hn
  dsimp only at hle ⊢
  omega

/-- C2: starting from the load-time cursor initialization, over any sequence
of `fKnown = false` `FindBlockPos` calls, a position returned for the NORMAL
stream and a position returned for the ASSUMED stream never carry the same
file number; and when a snapshot is active but no file extends past its base
height, the initialization seeds the ASSUMED cursor strictly past every
existing file number. -/
theorem claim_C2_stream_file_separation (infos : List CBlockFileInfo)
    (snapshotBase : Option Nat) (reqs : List FBPRequest) (fastPrune : Bool)
    (base : Nat)
    (hn : (initCursors infos snapshotBase).normal_cursor.isSome) :
    (∀ f, (BlockfileType.NORMAL, f) ∈
        runFindBlockPos fastPrune reqs (initCursors infos snapshotBase) →
      (BlockfileType.ASSUMED, f) ∈
        runFindBlockPos fastPrune reqs (initCursors infos snapshotBase) →
      False) ∧
    ((∀ i, i < infos.length →
        (infos.getD i CBlockFileInfo.setNull).nHeightLast ≤ base) →
      ∃ ca, (initCursors infos (some base)).assumed_cursor = some ca ∧
        ∀ i, i < infos.length → i < ca.file_num) :=
  ⟨(runFindBlockPos_spec fastPrune reqs (initCursors infos snapshotBase) hn
      (initCursors_sep infos snapshotBase)).2,
   initCursors_assumed_seeded infos base⟩

/-- Witness for C2: one stored file, no snapshot, a NORMAL write followed by
an ASSUMED write. -/
theorem claim_C2_stream_file_separation_witness :
    (initCursors [⟨1, 10, 0, 0, 0, 0, 0⟩] none).normal_cursor.isSome ∧
    ((∀ f, (BlockfileType.NORMAL, f) ∈
        runFindBlockPos true [⟨5, 1, BlockfileType.NORMAL, 0⟩,
          ⟨6, 2, BlockfileType.ASSUMED, 1⟩]
          (initCursors [⟨1, 10, 0, 0, 0, 0, 0⟩] none) →
      (BlockfileType.ASSUMED, f) ∈
        runFindBlockPos true [⟨5, 1, BlockfileType.NORMAL, 0⟩,
          ⟨6, 2, BlockfileType.ASSUMED, 1⟩]
          (initCursors [⟨1, 10, 0, 0, 0, 0, 0⟩] none) →
      False) ∧
    ((∀ i, i < ([⟨1, 10, 0, 0, 0, 0, 0⟩] :
          List CBlockFileInfo).length →
        (([⟨1, 10, 0, 0, 0, 0, 0⟩] : List CBlockFileInfo).getD i
          CBlockFileInfo.setNull).nHeightLast ≤ 0) →
      ∃ ca, (initCursors [⟨1, 10, 0, 0, 0, 0, 0⟩]
          (some 0)).assumed_cursor = some ca ∧
        ∀ i, i < ([⟨1, 10, 0, 0, 0, 0, 0⟩] :
          List CBlockFileInfo).length → i < ca.file_num)) :=
  ⟨by decide, claim_C2_stream_file_separation [⟨1, 10, 0, 0, 0, 0, 0⟩] none
    [⟨5, 1, BlockfileType.NORMAL, 0⟩, ⟨6, 2, BlockfileType.ASSUMED, 1⟩]
    true 0 (by decide)⟩

theorem getD_set_ne (v d : CBlockFileInfo) :
    ∀ (l : List CBlockFileInfo) (i j : Nat), j ≠ i →
    (l.set i v).getD j d = l.getD j d := by
  intro l
  induction l with
  | nil => intro i j _; rfl
  | cons hd tl ih =>
    intro i j h
    cases i with
    | zero =>
      cases j with
      | zero => exact absurd rfl h
      | succ j => simp [List.set, List.getD_cons_succ]
    | succ i =>
      cases j with
      | zero => simp [List.set]
      | succ j =>
        simp only [List.set, List.getD_cons_succ]
        exact ih i j (by omega)

theorem infoAt_setInfo_ne (st : BMState) (i j : Nat) (v : CBlockFileInfo)
    (h : j ≠ i) : (st.setInfo i v).infoAt j = st.infoAt j := by
  unfold BMState.setInfo BMState.infoAt
  exact getD_set_ne v CBlockFileInfo.setNull st.m_blockfile_info i j h

theorem infoAt_pruneOneBlockFile_ne (st : PruneState) (f g : Nat)
    (h : g ≠ f) :
    (pruneOneBlockFile st f).bm.infoAt g = st.bm.infoAt g := by
  unfold pruneOneBlockFile
  exact infoAt_setInfo_ne st.bm f g CBlockFileInfo.setNull h

theorem sum_map_set_add (v : CBlockFileInfo) :
    ∀ (l : List CBlockFileInfo) (i : Nat), i < l.length →
    ((l.set i v).map fun f => f.nSize + f.nUndoSize).sum +
      ((l.getD i CBlockFileInfo.setNull).nSize +
        (l.getD i CBlockFileInfo.setNull).nUndoSize) =
    (l.map fun f => f.nSize + f.nUndoSize).sum + (v.nSize + v.nUndoSize) := by
  intro l
  induction l with
  | nil => intro i hi; simp at hi
  | cons hd tl ih =>
    intro i hi
    cases i with
    | zero =>
      simp only [List.set, List.map_cons, List.sum_cons, List.getD_cons_zero]
      omega
    | succ i =>
      simp only [List.set, List.map_cons, List.sum_cons, List.getD_cons_succ]
      have := ih i (by simpa using hi)
      omega

theorem calcUsage_pruneOneBlockFile (st : PruneState) (f : Nat)
    (h : f < st.bm.m_blockfile_info.length) :
    calculateCurrentUsage (pruneOneBlockFile st f) +
      ((st.bm.infoAt f).nSize + (st.bm.infoAt f).nUndoSize) =
    calculateCurrentUsage st := by
  have := sum_map_set_add CBlockFileInfo.setNull st.bm.m_blockfile_info f h
  unfold calculateCurrentUsage pruneOneBlockFile BMState.setInfo BMState.infoAt
  dsimp only
  unfold BMState.infoAt at this
  have h1 : CBlockFileInfo.setNull.nSize = 0 := rfl
  have h2 : CBlockFileInfo.setNull.nUndoSize = 0 := rfl
  omega

theorem bytes_le_calcUsage (st : PruneState) (f : Nat)
    (h : f < st.bm.m_blockfile_info.length) :
    (st.bm.infoAt f).nSize + (st.bm.infoAt f).nUndoSize ≤
      calculateCurrentUsage st := by
  have := calcUsage_pruneOneBlockFile st f h
  omega

theorem nSize_ne_zero_lt_length (st : PruneState) (f : Nat)
    (h : (st.bm.infoAt f).nSize ≠ 0) : f < st.bm.m_blockfile_info.length := by
  by_contra hge
  apply h
  unfold BMState.infoAt
  rw [List.getD_eq_default _ _ (by omega)]
  rfl

theorem pruneScanLoop_spec (target minBlock lastCanPrune nBuffer : Nat) :
    ∀ (todo : List Nat) (st : PruneState) (usage : Nat),
    todo.Nodup → usage = calculateCurrentUsage st → usage < 2 ^ 64 →
    (pruneScanLoop target minBlock lastCanPrune nBuffer todo st usage).2.2 =
      calculateCurrentUsage
        (pruneScanLoop target minBlock lastCanPrune nBuffer todo st usage).1 ∧
    (pruneScanLoop target minBlock lastCanPrune nBuffer todo st usage).2.2 ≤
      usage ∧
    List.Sublist
      (pruneScanLoop target minBlock lastCanPrune nBuffer todo st usage).2.1
      todo ∧
    (∀ f ∈ (pruneScanLoop target minBlock lastCanPrune nBuffer todo st
        usage).2.1,
      (st.bm.infoAt f).nSize ≠ 0 ∧
        minBlock ≤ (st.bm.infoAt f).nHeightFirst ∧
        (st.bm.infoAt f).nHeightLast ≤ lastCanPrune) ∧
    (∀ g, g ∉ (pruneScanLoop target minBlock lastCanPrune nBuffer todo st
        usage).2.1 →
      (pruneScanLoop target minBlock lastCanPrune nBuffer todo st
        usage).1.bm.infoAt g = st.bm.infoAt g) := by
  intro todo
  induction todo with
  | nil =>
    intro st usage _ hu _
    exact ⟨hu, le_refl _, List.Sublist.refl _,
      fun f hf => absurd hf (List.not_mem_nil f),
      fun g _ => rfl⟩
  | cons f rest ih =>
    intro st usage hnd hu hub
    simp only [pruneScanLoop]
    by_cases h0 : (st.bm.infoAt f).nSize = 0
    · rw [if_pos h0]
      obtain ⟨s1, s2, s3, s4, s5⟩ := ih st usage (List.nodup_cons.mp hnd).2
        hu hub
      exact ⟨s1, s2, s3.trans (List.sublist_cons_self f rest), s4, s5⟩
    · rw [if_neg h0]
      by_cases hbr : usage + nBuffer < target
      · rw [if_pos hbr]
        exact ⟨hu, le_refl _, List.nil_sublist _,
          fun x hx => absurd hx (by simp), fun g _ => rfl⟩
      · rw [if_neg hbr]
        by_cases hh : lastCanPrune < (st.bm.infoAt f).nHeightLast ∨
            (st.bm.infoAt f).nHeightFirst < minBlock
        · rw [if_pos hh]
          obtain ⟨s1, s2, s3, s4, s5⟩ := ih st usage (List.nodup_cons.mp hnd).2
            hu hub
          exact ⟨s1, s2, s3.trans (List.sublist_cons_self f rest), s4, s5⟩
        · rw [if_neg hh]
          have hflen := nSize_ne_zero_lt_length st f h0
          have hbytes := bytes_le_calcUsage st f hflen
          have hcu := calcUsage_pruneOneBlockFile st f hflen
          have husage' : (usage + 2 ^ 64 -
              ((st.bm.infoAt f).nSize + (st.bm.infoAt f).nUndoSize) % 2 ^ 64) %
                2 ^ 64 =
              calculateCurrentUsage (pruneOneBlockFile st f) := by
            omega
          obtain ⟨s1, s2, s3, s4, s5⟩ := ih (pruneOneBlockFile st f)
            ((usage + 2 ^ 64 -
              ((st.bm.infoAt f).nSize + (st.bm.infoAt f).nUndoSize) % 2 ^ 64) %
                2 ^ 64)
            (List.nodup_cons.mp hnd).2 husage' (by omega)
          dsimp only
          refine ⟨s1, by omega, List.Sublist.cons₂ f s3, ?_, ?_⟩
          · intro x hx
            rw [List.mem_cons] at hx
            rcases hx with hx | hx
            · subst hx
              exact ⟨h0, by omega, by omega⟩
            · have hxin := s4 x hx
              have hxne : x ≠ f := by
                intro hcon
                subst hcon
                exact (List.nodup_cons.mp hnd).1 (s3.subset hx)
              rw [infoAt_pruneOneBlockFile_ne st f x hxne] at hxin
              exact hxin
          · intro g hg
            rw [List.mem_cons] at hg
            push_neg at hg
            rw [s5 g hg.2, infoAt_pruneOneBlockFile_ne st f g hg.1]

theorem pruneManualLoop_spec (minBlock last : Nat) :
    ∀ (todo : List Nat) (st : PruneState), todo.Nodup →
    List.Sublist (pruneManualLoop minBlock last todo st).2 todo ∧
    (∀ f ∈ (pruneManualLoop minBlock last todo st).2,
      (st.bm.infoAt f).nSize ≠ 0 ∧
        minBlock ≤ (st.bm.infoAt f).nHeightFirst ∧
        (st.bm.infoAt f).nHeightLast ≤ last) ∧
    (∀ g, g ∉ (pruneManualLoop minBlock last todo st).2 →
      (pruneManualLoop minBlock last todo st).1.bm.infoAt g =
        st.bm.infoAt g) := by
  intro todo
  induction todo with
  | nil =>
    intro st _
    exact ⟨List.Sublist.refl _, fun f hf => absurd hf (List.not_mem_nil f),
      fun g _ => rfl⟩
  | cons f rest ih =>
    intro st hnd
    simp only [pruneManualLoop]
    by_cases hc : (st.bm.infoAt f).nSize = 0 ∨
        last < (st.bm.infoAt f).nHeightLast ∨
        (st.bm.infoAt f).nHeightFirst < minBlock
    · rw [if_pos hc]
      obtain ⟨s1, s2, s3⟩ := ih st (List.nodup_cons.mp hnd).2
      exact ⟨s1.trans (List.sublist_cons_self f rest), s2, s3⟩
    · rw [if_neg hc]
      push_neg at hc
      obtain ⟨s1, s2, s3⟩ := ih (pruneOneBlockFile st f)
        (List.nodup_cons.mp hnd).2
      dsimp only
      refine ⟨List.Sublist.cons₂ f s1, ?_, ?_⟩
      · intro x hx
        rw [List.mem_cons] at hx
        rcases hx with hx | hx
        · subst hx
          exact ⟨hc.1, by omega, by omega⟩
        · have hxin := s2 x hx
          have hxne : x ≠ f := fun hcon =>
            (List.nodup_cons.mp hnd).1 (hcon ▸ s1.subset hx)
          rw [infoAt_pruneOneBlockFile_ne st f x hxne] at hxin
          exact hxin
      · intro g hg
        rw [List.mem_cons] at hg
        push_neg at hg
        rw [s3 g hg.2, infoAt_pruneOneBlockFile_ne st f g hg.1]

theorem pruneScanLoop_buffer_mono (target minBlock lastCanPrune b1 b2 : Nat)
    (hb : b1 ≤ b2) :
    ∀ (todo : List Nat) (st : PruneState) (usage : Nat),
    List.Sublist
      (pruneScanLoop target minBlock lastCanPrune b1 todo st usage).2.1
      (pruneScanLoop target minBlock lastCanPrune b2 todo st usage).2.1 := by
  intro todo
  induction todo with
  | nil =>
    intro st usage
    exact List.Sublist.refl _
  | cons f rest ih =>
    intro st usage
    simp only [pruneScanLoop]
    by_cases h0 : (st.bm.infoAt f).nSize = 0
    · rw [if_pos h0, if_pos h0]
      exact ih st usage
    · rw [if_neg h0, if_neg h0]
      by_cases hbr1 : usage + b1 < target
      · rw [if_pos hbr1]
        exact List.nil_sublist _
      · rw [if_neg hbr1, if_neg (show ¬ usage + b2 < target by omega)]
        by_cases hh : lastCanPrune < (st.bm.infoAt f).nHeightLast ∨
            (st.bm.infoAt f).nHeightFirst < minBlock
        · rw [if_pos hh, if_pos hh]
          exact ih st usage
        · rw [if_neg hh, if_neg hh]
          exact List.Sublist.cons₂ f (ih _ _)

/-- C3: both `FindFilesToPrune` and `FindFilesToPruneManual` scan files in
increasing file-number order (the selected set is an increasing subsequence
of the scan) and select a non-empty file only when its entire height range
lies within the safe window [`min_block_to_prune`, `nLastBlockWeCanPrune`]
(the manual variant capping the upper end by the requested height); and the
disk usage computed after the prune pass never exceeds the usage before. -/
theorem claim_C3_prune_selection (st : PruneState)
    (pruneTarget nChainstates nPruneAfterHeight : Nat)
    (chain_tip_height : Int) (minBlock lastCanPrune : Nat) (isIBD : Bool)
    (nManualPruneHeight : Nat)
    (hub : calculateCurrentUsage st < 2 ^ 64) :
    ((findFilesToPrune st pruneTarget nChainstates nPruneAfterHeight
        chain_tip_height minBlock lastCanPrune isIBD).2.Pairwise (· < ·) ∧
      (∀ f ∈ (findFilesToPrune st pruneTarget nChainstates nPruneAfterHeight
          chain_tip_height minBlock lastCanPrune isIBD).2,
        (st.bm.infoAt f).nSize ≠ 0 ∧
          minBlock ≤ (st.bm.infoAt f).nHeightFirst ∧
          (st.bm.infoAt f).nHeightLast ≤ lastCanPrune) ∧
      calculateCurrentUsage (findFilesToPrune st pruneTarget nChainstates
        nPruneAfterHeight chain_tip_height minBlock lastCanPrune isIBD).1 ≤
        calculateCurrentUsage st) ∧
    ((findFilesToPruneManual st nManualPruneHeight chain_tip_height minBlock
        lastCanPrune).2.Pairwise (· < ·) ∧
      (∀ f ∈ (findFilesToPruneManual st nManualPruneHeight chain_tip_height
          minBlock lastCanPrune).2,
        (st.bm.infoAt f).nSize ≠ 0 ∧
          minBlock ≤ (st.bm.infoAt f).nHeightFirst ∧
          (st.bm.infoAt f).nHeightLast ≤
            min lastCanPrune nManualPruneHeight)) := by
  constructor
  · unfold findFilesToPrune
    by_cases h1 : chain_tip_height < 0 ∨ pruneTarget / nChainstates = 0
    · rw [if_pos h1]
      exact ⟨List.Pairwise.nil, fun f hf => absurd hf (List.not_mem_nil f),
        le_refl _⟩
    · rw [if_neg h1]
      by_cases h2 : chain_tip_height.toNat ≤ nPruneAfterHeight
      · rw [if_pos h2]
        exact ⟨List.Pairwise.nil, fun f hf => absurd hf (List.not_mem_nil f),
          le_refl _⟩
      · rw [if_neg h2]
        dsimp only
        by_cases h3 : calculateCurrentUsage st +
            (BLOCKFILE_CHUNK_SIZE + UNDOFILE_CHUNK_SIZE) ≥
            pruneTarget / nChainstates
        · rw [if_pos h3]
          obtain ⟨s1, s2, s3, s4, s5⟩ := pruneScanLoop_spec
            (pruneTarget / nChainstates) minBlock lastCanPrune
            (if isIBD then BLOCKFILE_CHUNK_SIZE + UNDOFILE_CHUNK_SIZE +
              (pruneTarget / nChainstates) / 10
              else BLOCKFILE_CHUNK_SIZE + UNDOFILE_CHUNK_SIZE)
            (List.range st.bm.maxBlockfileNum) st (calculateCurrentUsage st)
            (List.nodup_range _) rfl hub
          refine ⟨(List.pairwise_lt_range _).sublist s3, s4, ?_⟩
          dsimp only
          omega
        · rw [if_neg h3]
          exact ⟨List.Pairwise.nil, fun f hf => absurd hf (List.not_mem_nil f),
            le_refl _⟩
  · unfold findFilesToPruneManual
    by_cases h1 : chain_tip_height < 0
    · rw [if_pos h1]
      exact ⟨List.Pairwise.nil, fun f hf => absurd hf (List.not_mem_nil f)⟩
    · rw [if_neg h1]
      obtain ⟨s1, s2, _⟩ := pruneManualLoop_spec minBlock
        (min lastCanPrune nManualPruneHeight)
        (List.range st.bm.maxBlockfileNum) st (List.nodup_range _)
      exact ⟨(List.pairwise_lt_range _).sublist s1, s2⟩

/-- Witness for C3: two stored files, one of which (file 0, heights 5-8)
lies inside the safe window while the other (file 1, heights 9-12) exceeds
it. -/
theorem claim_C3_prune_selection_witness :
    (calculateCurrentUsage
      ⟨⟨[⟨1, 100, 10, 5, 8, 0, 0⟩, ⟨1, 50, 5, 9, 12, 0, 0⟩],
        some ⟨2, 0⟩, none⟩, [], []⟩ < 2 ^ 64) ∧
    (((findFilesToPrune
        ⟨⟨[⟨1, 100, 10, 5, 8, 0, 0⟩, ⟨1, 50, 5, 9, 12, 0, 0⟩],
          some ⟨2, 0⟩, none⟩, [], []⟩ 60 1 0 20 0 10 false).2.Pairwise
            (· < ·) ∧
      (∀ f ∈ (findFilesToPrune
          ⟨⟨[⟨1, 100, 10, 5, 8, 0, 0⟩, ⟨1, 50, 5, 9, 12, 0, 0⟩],
            some ⟨2, 0⟩, none⟩, [], []⟩ 60 1 0 20 0 10 false).2,
        ((⟨⟨[⟨1, 100, 10, 5, 8, 0, 0⟩, ⟨1, 50, 5, 9, 12, 0, 0⟩],
            some ⟨2, 0⟩, none⟩, [], []⟩ : PruneState).bm.infoAt f).nSize ≠ 0 ∧
          0 ≤ ((⟨⟨[⟨1, 100, 10, 5, 8, 0, 0⟩, ⟨1, 50, 5, 9, 12, 0, 0⟩],
            some ⟨2, 0⟩, none⟩, [], []⟩ : PruneState).bm.infoAt
              f).nHeightFirst ∧
          ((⟨⟨[⟨1, 100, 10, 5, 8, 0, 0⟩, ⟨1, 50, 5, 9, 12, 0, 0⟩],
            some ⟨2, 0⟩, none⟩, [], []⟩ : PruneState).bm.infoAt
              f).nHeightLast ≤ 10) ∧
      calculateCurrentUsage (findFilesToPrune
        ⟨⟨[⟨1, 100, 10, 5, 8, 0, 0⟩, ⟨1, 50, 5, 9, 12, 0, 0⟩],
          some ⟨2, 0⟩, none⟩, [], []⟩ 60 1 0 20 0 10 false).1 ≤
        calculateCurrentUsage
          ⟨⟨[⟨1, 100, 10, 5, 8, 0, 0⟩, ⟨1, 50, 5, 9, 12, 0, 0⟩],
            some ⟨2, 0⟩, none⟩, [], []⟩) ∧
    ((findFilesToPruneManual
        ⟨⟨[⟨1, 100, 10, 5, 8, 0, 0⟩, ⟨1, 50, 5, 9, 12, 0, 0⟩],
          some ⟨2, 0⟩, none⟩, [], []⟩ 7 20 0 10).2.Pairwise (· < ·) ∧
      (∀ f ∈ (findFilesToPruneManual
          ⟨⟨[⟨1, 100, 10, 5, 8, 0, 0⟩, ⟨1, 50, 5, 9, 12, 0, 0⟩],
            some ⟨2, 0⟩, none⟩, [], []⟩ 7 20 0 10).2,
        ((⟨⟨[⟨1, 100, 10, 5, 8, 0, 0⟩, ⟨1, 50, 5, 9, 12, 0, 0⟩],
            some ⟨2, 0⟩, none⟩, [], []⟩ : PruneState).bm.infoAt f).nSize ≠ 0 ∧
          0 ≤ ((⟨⟨[⟨1, 100, 10, 5, 8, 0, 0⟩, ⟨1, 50, 5, 9, 12, 0, 0⟩],
            some ⟨2, 0⟩, none⟩, [], []⟩ : PruneState).bm.infoAt
              f).nHeightFirst ∧
          ((⟨⟨[⟨1, 100, 10, 5, 8, 0, 0⟩, ⟨1, 50, 5, 9, 12, 0, 0⟩],
            some ⟨2, 0⟩, none⟩, [], []⟩ : PruneState).bm.infoAt
              f).nHeightLast ≤ min 10 7))) :=
  ⟨by decide,
   claim_C3_prune_selection
     ⟨⟨[⟨1, 100, 10, 5, 8, 0, 0⟩, ⟨1, 50, 5, 9, 12, 0, 0⟩],
       some ⟨2, 0⟩, none⟩, [], []⟩ 60 1 0 20 0 10 false 7 (by decide)⟩

/-- C8: in initial block download, `FindFilesToPrune` runs its file scan with
the disk-usage buffer enlarged by exactly one tenth of the per-chainstate
prune target, while outside IBD the buffer is just one block-file chunk plus
one undo-file chunk; consequently the set pruned outside IBD is a
subsequence of the set pruned in IBD on the same state. -/
theorem claim_C8_ibd_buffer (st : PruneState)
    (pruneTarget nChainstates nPruneAfterHeight : Nat)
    (chain_tip_height : Int) (minBlock lastCanPrune : Nat)
    (h1 : ¬(chain_tip_height < 0 ∨ pruneTarget / nChainstates = 0))
    (h2 : ¬(chain_tip_height.toNat ≤ nPruneAfterHeight))
    (h3 : calculateCurrentUsage st +
      (BLOCKFILE_CHUNK_SIZE + UNDOFILE_CHUNK_SIZE) ≥
      pruneTarget / nChainstates) :
    (findFilesToPrune st pruneTarget nChainstates nPruneAfterHeight
        chain_tip_height minBlock lastCanPrune true =
      ((pruneScanLoop (pruneTarget / nChainstates) minBlock lastCanPrune
        (BLOCKFILE_CHUNK_SIZE + UNDOFILE_CHUNK_SIZE +
          (pruneTarget / nChainstates) / 10)
        (List.range st.bm.maxBlockfileNum) st
        (calculateCurrentUsage st)).1,
       (pruneScanLoop (pruneTarget / nChainstates) minBlock lastCanPrune
        (BLOCKFILE_CHUNK_SIZE + UNDOFILE_CHUNK_SIZE +
          (pruneTarget / nChainstates) / 10)
        (List.range st.bm.maxBlockfileNum) st
        (calculateCurrentUsage st)).2.1)) ∧
    (findFilesToPrune st pruneTarget nChainstates nPruneAfterHeight
        chain_tip_height minBlock lastCanPrune false =
      ((pruneScanLoop (pruneTarget / nChainstates) minBlock lastCanPrune
        (BLOCKFILE_CHUNK_SIZE + UNDOFILE_CHUNK_SIZE)
        (List.range st.bm.maxBlockfileNum) st
        (calculateCurrentUsage st)).1,
       (pruneScanLoop (pruneTarget / nChainstates) minBlock lastCanPrune
        (BLOCKFILE_CHUNK_SIZE + UNDOFILE_CHUNK_SIZE)
        (List.range st.bm.maxBlockfileNum) st
        (calculateCurrentUsage st)).2.1)) ∧
    List.Sublist
      (findFilesToPrune st pruneTarget nChainstates nPruneAfterHeight
        chain_tip_height minBlock lastCanPrune false).2
      (findFilesToPrune st pruneTarget nChainstates nPruneAfterHeight
        chain_tip_height minBlock lastCanPrune true).2 := by
  have htrue : findFilesToPrune st pruneTarget nChainstates nPruneAfterHeight
      chain_tip_height minBlock lastCanPrune true =
      ((pruneScanLoop (pruneTarget / nChainstates) minBlock lastCanPrune
        (BLOCKFILE_CHUNK_SIZE + UNDOFILE_CHUNK_SIZE +
          (pruneTarget / nChainstates) / 10)
        (List.range st.bm.maxBlockfileNum) st
        (calculateCurrentUsage st)).1,
       (pruneScanLoop (pruneTarget / nChainstates) minBlock lastCanPrune
        (BLOCKFILE_CHUNK_SIZE + UNDOFILE_CHUNK_SIZE +
          (pruneTarget / nChainstates) / 10)
        (List.range st.bm.maxBlockfileNum) st
        (calculateCurrentUsage st)).2.1) := by
    unfold findFilesToPrune
    rw [if_neg h1]
    dsimp only
    rw [if_neg h2, if_pos h3]
    rfl
  have hfalse : findFilesToPrune st pruneTarget nChainstates nPruneAfterHeight
      chain_tip_height minBlock lastCanPrune false =
      ((pruneScanLoop (pruneTarget / nChainstates) minBlock lastCanPrune
        (BLOCKFILE_CHUNK_SIZE + UNDOFILE_CHUNK_SIZE)
        (List.range st.bm.maxBlockfileNum) st
        (calculateCurrentUsage st)).1,
       (pruneScanLoop (pruneTarget / nChainstates) minBlock lastCanPrune
        (BLOCKFILE_CHUNK_SIZE + UNDOFILE_CHUNK_SIZE)
        (List.range st.bm.maxBlockfileNum) st
        (calculateCurrentUsage st)).2.1) := by
    unfold findFilesToPrune
    rw [if_neg h1]
    dsimp only
    rw [if_neg h2, if_pos h3]
    rfl
  refine ⟨htrue, hfalse, ?_⟩
  rw [htrue, hfalse]
  exact pruneScanLoop_buffer_mono (pruneTarget / nChainstates) minBlock
    lastCanPrune _ _ (Nat.le_add_right _ _)
    (List.range st.bm.maxBlockfileNum) st (calculateCurrentUsage st)

/-- Witness for C8 at a concrete state whose usage is over the target. -/
theorem claim_C8_ibd_buffer_witness :
    ¬((20 : Int) < 0 ∨ (60 : Nat) / 1 = 0) ∧
    ¬((20 : Int).toNat ≤ (0 : Nat)) ∧
    (calculateCurrentUsage
      ⟨⟨[⟨1, 100, 10, 5, 8, 0, 0⟩, ⟨1, 50, 5, 9, 12, 0, 0⟩],
        some ⟨2, 0⟩, none⟩, [], []⟩ +
      (BLOCKFILE_CHUNK_SIZE + UNDOFILE_CHUNK_SIZE) ≥ 60 / 1) ∧
    List.Sublist
      (findFilesToPrune
        ⟨⟨[⟨1, 100, 10, 5, 8, 0, 0⟩, ⟨1, 50, 5, 9, 12, 0, 0⟩],
          some ⟨2, 0⟩, none⟩, [], []⟩ 60 1 0 20 0 10 false).2
      (findFilesToPrune
        ⟨⟨[⟨1, 100, 10, 5, 8, 0, 0⟩, ⟨1, 50, 5, 9, 12, 0, 0⟩],
          some ⟨2, 0⟩, none⟩, [], []⟩ 60 1 0 20 0 10 true).2 :=
  ⟨by decide, by decide, by decide,
   (claim_C8_ibd_buffer
     ⟨⟨[⟨1, 100, 10, 5, 8, 0, 0⟩, ⟨1, 50, 5, 9, 12, 0, 0⟩],
       some ⟨2, 0⟩, none⟩, [], []⟩ 60 1 0 20 0 10
     (by decide) (by decide) (by decide)).2.2⟩

theorem takeExact_append (a b : List Nat) (n : Nat) (h : a.length = n) :
    takeExact n (a ++ b) = some (a, b) := by
  unfold takeExact
  subst h
  rw [if_pos (by simp), List.take_left, List.drop_left]

theorem hash256_lt (l : List Nat) : hash256 l < 2 ^ 256 :=
  Nat.mod_lt _ (by norm_num)

theorem ser32_length (n : Nat) : (ser32 n).length = 4 := serLE_length 4 n

theorem ser256_length (n : Nat) : (ser256 n).length = 32 := serLE_length 32 n

theorem takeExact_all (l : List Nat) (n : Nat) (h : l.length = n) :
    takeExact n l = some (l, []) := by
  unfold takeExact
  subst h
  rw [if_pos (le_refl _), List.take_length, List.drop_length]

/-- C1: writing an undo record with `UndoWriteToDisk` at the end of the undo
file and reading it back with `UndoReadFromDisk` at the recorded position
(the write offset plus the 8-byte magic/size header), with the parent
block's hash as recorded in the index entry, succeeds and returns the same
record; in particular the trailing checksum — computed over the parent
block's hash followed by the undo payload — verifies. -/
theorem claim_C1_undo_roundtrip (magic fileBefore : List Nat) (u : CBlockUndo)
    (hashBlock : Nat) (hmagic : magic.length = 4)
    (hlen : u.payload.length < 2 ^ 32) :
    undoReadAt (fileBefore ++ undoWriteBytes magic u hashBlock)
      (fileBefore.length + 8) hashBlock = some u := by
  unfold undoReadAt undoWriteBytes serUndo
  have hsplit : fileBefore ++
      (magic ++ ser32 (ser32 u.payload.length ++ u.payload).length ++
        (ser32 u.payload.length ++ u.payload) ++
        ser256 (hash256 (ser256 hashBlock ++
          (ser32 u.payload.length ++ u.payload)))) =
      (fileBefore ++ magic ++
        ser32 (ser32 u.payload.length ++ u.payload).length) ++
      (ser32 u.payload.length ++ (u.payload ++
        ser256 (hash256 (ser256 hashBlock ++
          (ser32 u.payload.length ++ u.payload))))) := by
    simp [List.append_assoc]
  rw [hsplit]
  have hdroplen : (fileBefore ++ magic ++
      ser32 (ser32 u.payload.length ++ u.payload).length).length =
      fileBefore.length + 8 := by
    simp [hmagic, ser32, serLE_length]
  rw [← hdroplen, List.drop_left]
  rw [takeExact_append _ _ 4 (ser32_length _)]
  simp only [Option.some_bind]
  rw [deserLE_ser32 _ hlen]
  rw [takeExact_append _ _ _ rfl]
  simp only [Option.some_bind]
  rw [takeExact_all _ _ (ser256_length _)]
  simp only [Option.some_bind]
  rw [if_pos]
  exact deserLE_ser256 _ (hash256_lt _)

/-- Witness for C1: a three-byte undo payload written after an empty file
with the standard network magic. -/
theorem claim_C1_undo_roundtrip_witness :
    ([0xf9, 0xbe, 0xb4, 0xd9] : List Nat).length = 4 ∧
    (⟨[1, 2, 3]⟩ : CBlockUndo).payload.length < 2 ^ 32 ∧
    undoReadAt (([] : List Nat) ++
        undoWriteBytes [0xf9, 0xbe, 0xb4, 0xd9] ⟨[1, 2, 3]⟩ 77)
      (([] : List Nat).length + 8) 77 = some ⟨[1, 2, 3]⟩ :=
  ⟨by decide, by decide,
   claim_C1_undo_roundtrip [0xf9, 0xbe, 0xb4, 0xd9] [] ⟨[1, 2, 3]⟩ 77
     (by decide) (by decide)⟩

theorem deserBlock_round (b : CBlock) (tail : List Nat)
    (h1 : b.header.hashPrevBlock < 2 ^ 256) (h2 : b.header.nTime < 2 ^ 32)
    (h3 : b.header.nBits < 2 ^ 32) (h4 : b.header.nNonce < 2 ^ 32)
    (h5 : b.txBytes.length < 2 ^ 32) :
    deserBlock (serBlock b ++ tail) = some (b, tail) := by
  unfold deserBlock serBlock serHeader
  have hsplit : (ser256 b.header.hashPrevBlock ++ ser32 b.header.nTime ++
      ser32 b.header.nBits ++ ser32 b.header.nNonce ++
      ser32 b.txBytes.length ++ b.txBytes) ++ tail =
      ser256 b.header.hashPrevBlock ++ (ser32 b.header.nTime ++
      (ser32 b.header.nBits ++ (ser32 b.header.nNonce ++
      (ser32 b.txBytes.length ++ (b.txBytes ++ tail))))) := by
    simp [List.append_assoc]
  rw [hsplit]
  rw [takeExact_append _ _ 32 (ser256_length _)]
  simp only [Option.some_bind]
  rw [takeExact_append _ _ 4 (ser32_length _)]
  simp only [Option.some_bind]
  rw [takeExact_append _ _ 4 (ser32_length _)]
  simp only [Option.some_bind]
  rw [takeExact_append _ _ 4 (ser32_length _)]
  simp only [Option.some_bind]
  rw [takeExact_append _ _ 4 (ser32_length _)]
  simp only [Option.some_bind]
  rw [deserLE_ser32 _ h5, takeExact_append _ _ _ rfl]
  simp only [Option.some_bind]
  rw [deserLE_ser256 _ h1, deserLE_ser32 _ h2, deserLE_ser32 _ h3,
    deserLE_ser32 _ h4]

/-- C9: `ReadBlockFromDisk` fails for any stored block whose header does not
satisfy the proof-of-work check; the overload taking an index entry
additionally fails when the hash of the block read from disk differs from
the entry's block hash; and the save-then-read round-trip at the returned
position yields the block exactly when the proof-of-work check (and, on
signet, the block solution check) passes — so it succeeds only for blocks
with valid proof-of-work. -/
theorem claim_C9_read_pow_check (pow : Nat → Nat → Bool)
    (signetBlocks : Bool) (signetOk : CBlock → Bool)
    (file magic fileBefore : List Nat) (nPos nDataPos indexHash : Nat)
    (b : CBlock) (hmagic : magic.length = 4)
    (h1 : b.header.hashPrevBlock < 2 ^ 256) (h2 : b.header.nTime < 2 ^ 32)
    (h3 : b.header.nBits < 2 ^ 32) (h4 : b.header.nNonce < 2 ^ 32)
    (h5 : b.txBytes.length < 2 ^ 32) :
    (∀ b', readBlockFromDisk pow signetBlocks signetOk file nPos = some b' →
      pow b'.header.getHash b'.header.nBits = true) ∧
    (∀ b', readBlockFromDiskForIndex pow signetBlocks signetOk file nDataPos
        indexHash = some b' →
      b'.header.getHash = indexHash ∧
        pow b'.header.getHash b'.header.nBits = true) ∧
    (readBlockFromDisk pow signetBlocks signetOk
        (fileBefore ++ writeBlockBytes magic b) (fileBefore.length + 8) =
      if pow b.header.getHash b.header.nBits ∧
          ¬(signetBlocks = true ∧ signetOk b = false) then some b
      else none) := by
  have hread : ∀ (fl : List Nat) (p : Nat) (b' : CBlock),
      readBlockFromDisk pow signetBlocks signetOk fl p = some b' →
      pow b'.header.getHash b'.header.nBits = true := by
    intro fl p b' hr
    unfold readBlockFromDisk at hr
    cases hd : deserBlock (fl.drop p) with
    | none => rw [hd] at hr; exact Option.noConfusion hr
    | some br =>
      obtain ⟨b1, rest⟩ := br
      rw [hd] at hr
      dsimp only at hr
      by_cases hp : pow b1.header.getHash b1.header.nBits
      · rw [if_neg (by simp [hp])] at hr
        by_cases hs : signetBlocks ∧ ¬ signetOk b1
        · rw [if_pos hs] at hr
          exact Option.noConfusion hr
        · rw [if_neg hs] at hr
          injection hr with hr
          subst hr
          exact hp
      · rw [if_pos (by simp [hp])] at hr
        exact Option.noConfusion hr
  refine ⟨hread file nPos, ?_, ?_⟩
  · intro b' hr
    unfold readBlockFromDiskForIndex at hr
    cases hd : readBlockFromDisk pow signetBlocks signetOk file nDataPos with
    | none => rw [hd] at hr; exact Option.noConfusion hr
    | some b0 =>
      rw [hd] at hr
      dsimp only at hr
      by_cases hh : b0.header.getHash ≠ indexHash
      · rw [if_pos hh] at hr
        exact Option.noConfusion hr
      · rw [if_neg hh] at hr
        injection hr with hr
        subst hr
        push_neg at hh
        exact ⟨hh, hread file nDataPos _ hd⟩
  · unfold readBlockFromDisk writeBlockBytes
    have hsplit : fileBefore ++
        (magic ++ ser32 (serBlock b).length ++ serBlock b) =
        (fileBefore ++ magic ++ ser32 (serBlock b).length) ++
          (serBlock b ++ []) := by
      simp [List.append_assoc]
    rw [hsplit]
    have hdroplen : (fileBefore ++ magic ++
        ser32 (serBlock b).length).length = fileBefore.length + 8 := by
      simp [hmagic, ser32, serLE_length]
    rw [← hdroplen, List.drop_left]
    rw [deserBlock_round b [] h1 h2 h3 h4 h5]
    dsimp only
    by_cases hp : pow b.header.getHash b.header.nBits
    · rw [if_neg (by simp [hp])]
      by_cases hs : signetBlocks ∧ ¬ signetOk b
      · rw [if_pos hs, if_neg (by simp at hs ⊢; tauto)]
      · rw [if_neg hs, if_pos (by simp at hs ⊢; tauto)]
    · rw [if_pos (by simp [hp]), if_neg (by simp [hp])]

/-- Witness for C9 at a concrete block, a proof-of-work predicate that
accepts it, and an index hash matching it. -/
theorem claim_C9_read_pow_check_witness :
    ([0xf9, 0xbe, 0xb4, 0xd9] : List Nat).length = 4 ∧
    (⟨⟨1, 2, 3, 4⟩, [9, 9]⟩ : CBlock).header.hashPrevBlock < 2 ^ 256 ∧
    (⟨⟨1, 2, 3, 4⟩, [9, 9]⟩ : CBlock).header.nTime < 2 ^ 32 ∧
    (⟨⟨1, 2, 3, 4⟩, [9, 9]⟩ : CBlock).header.nBits < 2 ^ 32 ∧
    (⟨⟨1, 2, 3, 4⟩, [9, 9]⟩ : CBlock).header.nNonce < 2 ^ 32 ∧
    (⟨⟨1, 2, 3, 4⟩, [9, 9]⟩ : CBlock).txBytes.length < 2 ^ 32 ∧
    (readBlockFromDisk (fun _ _ => true) false (fun _ => true)
        (([] : List Nat) ++
          writeBlockBytes [0xf9, 0xbe, 0xb4, 0xd9] ⟨⟨1, 2, 3, 4⟩, [9, 9]⟩)
        (([] : List Nat).length + 8) =
      if (fun (_ _ : Nat) => true) (⟨⟨1, 2, 3, 4⟩, [9, 9]⟩ :
            CBlock).header.getHash
          (⟨⟨1, 2, 3, 4⟩, [9, 9]⟩ : CBlock).header.nBits ∧
          ¬(false = true ∧ (fun (_ : CBlock) => true)
            ⟨⟨1, 2, 3, 4⟩, [9, 9]⟩ = false) then
        some ⟨⟨1, 2, 3, 4⟩, [9, 9]⟩
      else none) :=
  ⟨by decide, by decide, by decide, by decide, by decide, by decide,
   (claim_C9_read_pow_check (fun _ _ => true) false (fun _ => true) []
     [0xf9, 0xbe, 0xb4, 0xd9] [] 0 0 0 ⟨⟨1, 2, 3, 4⟩, [9, 9]⟩
     (by decide) (by decide) (by decide) (by decide) (by decide)
     (by decide)).2.2⟩

/-- C7: when the durable store records that block files were ever pruned
and pruning is disabled, `LoadChainstateSequence` returns
`ERROR_PRUNED_NEEDS_REINDEX`, the block index load did run, and no later
stage executes: no genesis block is written, no coins view is
initialized, upgraded or replayed, no chain tip is loaded and no
verification runs. The check comes after the block index load and the
genesis-hash check: with the same pruned flag set, a failing index load
yields `ERROR_LOADING_BLOCK_DB` and a failing genesis lookup yields
`ERROR_BAD_GENESIS_BLOCK` instead. -/
theorem claim_C7_pruned_needs_reindex (w : CSWorld)
    (fReset fReindexChainState : Bool) (adjustedTime : Nat)
    (hsd : w.shutdownRequested1 = false)
    (hload : w.loadBlockIndexOk = true)
    (hgen : w.blockIndexEmpty = true ∨ w.genesisInIndex = true)
    (hpruned : w.fHavePrunedLoaded = true) :
    (loadChainstateSequence w fReset false fReindexChainState
        adjustedTime).2 =
      some ChainstateLoadingError.ERROR_PRUNED_NEEDS_REINDEX ∧
    LoadEffect.loadBlockIndex ∈
      (loadChainstateSequence w fReset false fReindexChainState
        adjustedTime).1 ∧
    (loadChainstateSequence w fReset false fReindexChainState
        adjustedTime).1.all (fun e => ! e.isLaterStage) = true ∧
    (loadChainstateSequence
        {w with loadBlockIndexOk := false, shutdownRequested2 := false}
        fReset false fReindexChainState adjustedTime).2 =
      some ChainstateLoadingError.ERROR_LOADING_BLOCK_DB ∧
    (loadChainstateSequence
        {w with blockIndexEmpty := false, genesisInIndex := false}
        fReset false fReindexChainState adjustedTime).2 =
      some ChainstateLoadingError.ERROR_BAD_GENESIS_BLOCK := by
  have hgen' : (!w.blockIndexEmpty && !w.genesisInIndex) = false := by
    rcases hgen with h | h <;> simp [h]
  refine ⟨?_, ?_, ?_, ?_, ?_⟩
  · simp [loadChainstateSequence, hsd, hload, hgen', hpruned]
  · simp [loadChainstateSequence, hsd, hload, hgen', hpruned]
  · cases fReset <;>
      simp [loadChainstateSequence, hsd, hload, hgen', hpruned,
        LoadEffect.isLaterStage]
  · simp [loadChainstateSequence, hsd]
  · simp [loadChainstateSequence, hsd, hload, hpruned]

/-- Witness for C7 at a concrete world: pruned flag loaded, index load ok,
empty index, pruning disabled. -/
theorem claim_C7_pruned_needs_reindex_witness :
    (CSWorld.mk false false true true false true false true [] false
        ).shutdownRequested1 = false ∧
    (CSWorld.mk false false true true false true false true [] false
        ).loadBlockIndexOk = true ∧
    ((CSWorld.mk false false true true false true false true [] false
        ).blockIndexEmpty = true ∨
      (CSWorld.mk false false true true false true false true [] false
        ).genesisInIndex = true) ∧
    (CSWorld.mk false false true true false true false true [] false
        ).fHavePrunedLoaded = true ∧
    ((loadChainstateSequence
        (CSWorld.mk false false true true false true false true [] false)
        false false false 0).2 =
      some ChainstateLoadingError.ERROR_PRUNED_NEEDS_REINDEX ∧
    LoadEffect.loadBlockIndex ∈
      (loadChainstateSequence
        (CSWorld.mk false false true true false true false true [] false)
        false false false 0).1 ∧
    (loadChainstateSequence
        (CSWorld.mk false false true true false true false true [] false)
        false false false 0).1.all (fun e => ! e.isLaterStage) = true ∧
    (loadChainstateSequence
        {CSWorld.mk false false true true false true false true [] false
          with loadBlockIndexOk := false, shutdownRequested2 := false}
        false false false 0).2 =
      some ChainstateLoadingError.ERROR_LOADING_BLOCK_DB ∧
    (loadChainstateSequence
        {CSWorld.mk false false true true false true false true [] false
          with blockIndexEmpty := false, genesisInIndex := false}
        false false false 0).2 =
      some ChainstateLoadingError.ERROR_BAD_GENESIS_BLOCK) :=
  ⟨rfl, rfl, Or.inl rfl, rfl,
    claim_C7_pruned_needs_reindex
      (CSWorld.mk false false true true false true false true [] false)
      false false 0 rfl rfl (Or.inl rfl) rfl⟩

end BlockStorage
